import Mathlib

/-!
# Verification of the brickdb disk-resident hash index

A shallow embedding of the core of `brickdb`, a persistent key-value store
with two on-disk hash index variants:

* `index.HashIndex` (static table, file `src/index/hash_index.go`),
* `index.LinearHashIndex` (linear hashing,
  `src/index/linear_hash_index/linear_hash_index.go`),
* the `Brickdb` facade (`pkg/brickdb/db.go`, revision with `getIndexType`).

Go strings are byte strings; they are modelled as `List Char` (all data in
the repository's records is ASCII; the hash is computed on the UTF-8 bytes,
which we encode explicitly).  The mutable files are modelled at record
granularity: the `.idx`/`.bkt` chain records live in an association list
from byte offset to record, the pointer array and free pointer are separate
fields (they live at fixed, disjoint offset ranges of the index file), and
the `.dat` file is a plain byte (char) list that is overwritten and
appended exactly as the Go code does.  The per-operation scratch fields
that the Go code keeps on the index handle (`idxbuf`, `datbuf`, `idxoff`,
`datlen`, ...) are modelled as an explicit `Handle` record threaded through
the functions.

Go behaviours are reported through `Res`: `ok` for normal return values,
`err` for returned `error` values, and `crash` for runtime panics or
non-termination (an out-of-range slice index, or a chain walk that can
never reach the end of a chain).
-/

set_option linter.unusedVariables false

namespace Brickdb

/-! ## ASCII decimal codec (`fmt.Sprintf("%d", ·)` / `parseInt`) -/

/-- The ASCII digit for a value `d < 10` (`'0'` .. `'9'`). -/
def digitChar (d : Nat) : Char := Char.ofNat (48 + d)

/-- Little-endian decimal digit characters of `n` (`fuel`-bounded
structural recursion so that the kernel can evaluate it; `fuel ≥ n`
suffices). -/
def natDigitsAux : Nat → Nat → List Char
  | 0, _ => []
  | fuel + 1, n => if n = 0 then [] else digitChar (n % 10) :: natDigitsAux fuel (n / 10)

/-- Go `fmt.Sprintf("%d", n)` for a non-negative integer: most significant
digit first, `"0"` for zero. -/
def natChars (n : Nat) : List Char :=
  if n = 0 then ['0'] else (natDigitsAux n n).reverse

/-- Go `fmt.Sprintf("%d", i)` for an `int64`. -/
def intChars (i : Int) : List Char :=
  if i < 0 then '-' :: natChars i.natAbs else natChars i.natAbs

/-- Characters treated as white space by Go's `strings.TrimSpace` (the
ASCII fragment, which is all the repository ever produces). -/
def isSpaceGo (c : Char) : Bool :=
  c = ' ' || c = '\t' || c = '\n' || c = '\x0b' || c = '\x0c' || c = '\r'

/-- `strings.TrimSpace`. -/
def trimSpace (s : List Char) : List Char :=
  ((s.dropWhile isSpaceGo).reverse.dropWhile isSpaceGo).reverse

/-- Whether `c` is an ASCII decimal digit. -/
def isDigitChar (c : Char) : Bool := 48 ≤ c.toNat && c.toNat ≤ 57

/-- Value of a digit string, most significant digit first. -/
def digitsVal (l : List Char) : Nat :=
  l.foldl (fun a c => 10 * a + (c.toNat - 48)) 0

/-- `strconv.ParseInt(strings.TrimSpace(s), 10, 64)`: the `parseInt`
helper shared by both index variants.  `none` models a returned error
(empty input, a non-digit character, or 64-bit overflow). -/
def parseInt (s : List Char) : Option Int :=
  match trimSpace s with
  | [] => none
  | c :: rest =>
    let ds := if c == '-' || c == '+' then rest else c :: rest
    if ds = [] then none
    else if ds.all isDigitChar then
      let v := digitsVal ds
      if c == '-' then
        if (v : Int) ≤ 2 ^ 63 then some (-(v : Int)) else none
      else
        if v < 2 ^ 63 then some (v : Int) else none
    else none

/-- `strings.Split` for a one-character separator. -/
def splitOnChar (c : Char) : List Char → List (List Char)
  | [] => [[]]
  | x :: xs =>
    if x = c then [] :: splitOnChar c xs
    else
      match splitOnChar c xs with
      | [] => [[x]]
      | y :: ys => (x :: y) :: ys

/-- `testNewLine`: the last byte of the record must be a newline
(`utf8.DecodeLastRune`; on an empty string it yields the error rune). -/
def testNewLine (s : List Char) : Bool := s.getLast? = some '\n'

/-! ### Codec lemmas -/

theorem digitChar_isDigit {d : Nat} (hd : d < 10) : isDigitChar (digitChar d) = true := by
  interval_cases d <;> decide

theorem digitChar_ne_colon {d : Nat} (hd : d < 10) : digitChar d ≠ ':' := by
  interval_cases d <;> decide

theorem digitChar_ne_newline {d : Nat} (hd : d < 10) : digitChar d ≠ '\n' := by
  interval_cases d <;> decide

theorem digitChar_not_space {d : Nat} (hd : d < 10) : isSpaceGo (digitChar d) = false := by
  interval_cases d <;> decide

theorem digitChar_toNat {d : Nat} (hd : d < 10) : (digitChar d).toNat = 48 + d := by
  interval_cases d <;> decide

theorem natDigitsAux_eq_digits : ∀ {fuel n : Nat}, n ≤ fuel →
    natDigitsAux fuel n = (Nat.digits 10 n).map digitChar := by
  intro fuel
  induction fuel with
  | zero =>
    intro n hn
    obtain rfl : n = 0 := Nat.le_zero.mp hn
    simp [natDigitsAux]
  | succ fuel ih =>
    intro n hn
    by_cases h0 : n = 0
    · subst h0
      simp [natDigitsAux]
    · show (if n = 0 then [] else digitChar (n % 10) :: natDigitsAux fuel (n / 10)) = _
      rw [if_neg h0, Nat.digits_def' (show (1:Nat) < 10 by norm_num) (Nat.pos_of_ne_zero h0),
        List.map_cons]
      congr 1
      refine ih ?_
      have := Nat.div_lt_self (Nat.pos_of_ne_zero h0) (show 1 < 10 by norm_num)
      omega

theorem natChars_eq (n : Nat) :
    natChars n = if n = 0 then ['0'] else ((Nat.digits 10 n).map digitChar).reverse := by
  unfold natChars
  split
  · rfl
  · rw [natDigitsAux_eq_digits (Nat.le_refl n)]

theorem natChars_ne_nil (n : Nat) : natChars n ≠ [] := by
  rw [natChars_eq]
  split
  · simp
  · next h =>
    have hne : Nat.digits 10 n ≠ [] := Nat.digits_ne_nil_iff_ne_zero.mpr h
    simp [hne]

theorem natChars_all_digits (n : Nat) : (natChars n).all isDigitChar = true := by
  rw [natChars_eq]
  split
  · decide
  · rw [List.all_eq_true]
    intro c hc
    rw [List.mem_reverse, List.mem_map] at hc
    obtain ⟨d, hd, rfl⟩ := hc
    exact digitChar_isDigit (Nat.digits_lt_base (by norm_num) hd)

theorem mem_natChars_isDigit {n : Nat} {c : Char} (hc : c ∈ natChars n) :
    isDigitChar c = true := by
  have := natChars_all_digits n
  rw [List.all_eq_true] at this
  exact this c hc

theorem natChars_no_colon {n : Nat} : ':' ∉ natChars n := by
  intro h
  have := mem_natChars_isDigit h
  simp [isDigitChar] at this

theorem natChars_no_newline {n : Nat} : '\n' ∉ natChars n := by
  intro h
  have := mem_natChars_isDigit h
  simp [isDigitChar] at this

theorem dropWhile_eq_self_of {p : Char → Bool} {l : List Char}
    (h : ∀ c ∈ l, p c = false) : l.dropWhile p = l := by
  cases l with
  | nil => rfl
  | cons x xs =>
    rw [List.dropWhile_cons, if_neg]
    simp [h x (List.mem_cons_self _ _)]

theorem trimSpace_of_no_space {s : List Char} (h : ∀ c ∈ s, isSpaceGo c = false) :
    trimSpace s = s := by
  unfold trimSpace
  rw [dropWhile_eq_self_of h, dropWhile_eq_self_of, List.reverse_reverse]
  intro c hc
  exact h c (List.mem_reverse.mp hc)

theorem isSpaceGo_eq_false_of_digit {c : Char} (h : isDigitChar c = true) :
    isSpaceGo c = false := by
  by_contra hne
  rw [Bool.not_eq_false] at hne
  simp only [isSpaceGo, Bool.or_eq_true, decide_eq_true_eq] at hne
  rcases hne with ((((h1 | h1) | h1) | h1) | h1) | h1 <;> subst h1 <;>
    exact absurd h (by decide)

theorem trimSpace_natChars (n : Nat) : trimSpace (natChars n) = natChars n :=
  trimSpace_of_no_space fun _ hc => isSpaceGo_eq_false_of_digit (mem_natChars_isDigit hc)

theorem digitsVal_append_digit (l : List Char) (c : Char) :
    digitsVal (l ++ [c]) = 10 * digitsVal l + (c.toNat - 48) := by
  simp [digitsVal, List.foldl_append]

theorem digitsVal_digits (n : Nat) :
    digitsVal (((Nat.digits 10 n).map digitChar).reverse) = n := by
  conv_rhs => rw [← Nat.ofDigits_digits 10 n]
  generalize hL : Nat.digits 10 n = L
  have hlt : ∀ d ∈ L, d < 10 := by
    intro d hd
    exact Nat.digits_lt_base (by norm_num) (hL ▸ hd)
  clear hL
  induction L with
  | nil => simp [digitsVal]
  | cons d L ih =>
    simp only [List.map_cons, List.reverse_cons, digitsVal_append_digit]
    rw [ih (fun x hx => hlt x (List.mem_cons_of_mem _ hx))]
    rw [digitChar_toNat (hlt d (List.mem_cons_self _ _))]
    simp [Nat.ofDigits_cons]
    ring

theorem digitsVal_natChars (n : Nat) : digitsVal (natChars n) = n := by
  rw [natChars_eq]
  split
  · simp [digitsVal]; omega
  · exact digitsVal_digits n

/-- Round trip: `parseInt` recovers any `%d`-formatted natural below `2^63`. -/
theorem parseInt_natChars {n : Nat} (hn : n < 2 ^ 63) :
    parseInt (natChars n) = some (n : Int) := by
  unfold parseInt
  rw [trimSpace_natChars]
  rcases hh : natChars n with _ | ⟨c, rest⟩
  · exact absurd hh (natChars_ne_nil n)
  · have hc : isDigitChar c = true :=
      mem_natChars_isDigit (hh ▸ List.mem_cons_self c rest)
    have hminus : (c == '-') = false := by
      cases hb : c == '-'
      · rfl
      · rw [beq_iff_eq] at hb; subst hb; exact absurd hc (by decide)
    have hplus : (c == '+') = false := by
      cases hb : c == '+'
      · rfl
      · rw [beq_iff_eq] at hb; subst hb; exact absurd hc (by decide)
    have hall : (c :: rest).all isDigitChar = true := hh ▸ natChars_all_digits n
    have hval : digitsVal (c :: rest) = n := hh ▸ digitsVal_natChars n
    simp [hminus, hplus, hall, hval, hn]
    omega

theorem natChars_length_le {n k : Nat} (h : n < 10 ^ k) (hk : 0 < k) :
    (natChars n).length ≤ k := by
  rw [natChars_eq]
  split
  · simpa using hk
  · next hne =>
    simp only [List.length_reverse, List.length_map]
    rw [Nat.digits_len 10 n (by norm_num) hne]
    have := Nat.log_lt_of_lt_pow hne h
    omega

theorem natChars_length_pos (n : Nat) : 0 < (natChars n).length :=
  List.length_pos.mpr (natChars_ne_nil n)

theorem splitOnChar_nil (c : Char) : splitOnChar c [] = [[]] := rfl

theorem splitOnChar_cons (c x : Char) (xs : List Char) :
    splitOnChar c (x :: xs) =
      if x = c then [] :: splitOnChar c xs
      else
        match splitOnChar c xs with
        | [] => [[x]]
        | y :: ys => (x :: y) :: ys := rfl

theorem splitOnChar_of_not_mem {c : Char} {l : List Char} (h : c ∉ l) :
    splitOnChar c l = [l] := by
  induction l with
  | nil => rfl
  | cons x xs ih =>
    rw [splitOnChar_cons, if_neg (by rintro rfl; exact h (List.mem_cons_self _ _)),
      ih (fun hx => h (List.mem_cons_of_mem _ hx))]

theorem splitOnChar_append {c : Char} {l : List Char} (rest : List Char) (h : c ∉ l) :
    splitOnChar c (l ++ c :: rest) = l :: splitOnChar c rest := by
  induction l with
  | nil => simp [splitOnChar_cons, splitOnChar_nil]
  | cons x xs ih =>
    rw [List.cons_append, splitOnChar_cons,
      if_neg (by rintro rfl; exact h (List.mem_cons_self _ _)),
      ih (fun hx => h (List.mem_cons_of_mem _ hx))]

theorem splitOnChar_three {c : Char} {a b d : List Char}
    (ha : c ∉ a) (hb : c ∉ b) (hd : c ∉ d) :
    splitOnChar c (a ++ c :: (b ++ c :: d)) = [a, b, d] := by
  rw [splitOnChar_append _ ha, splitOnChar_append _ hb, splitOnChar_of_not_mem hd]

/-! ## XXH64 (`github.com/OneOfOne/xxhash`, `NewS64(42).WriteString(key).Sum64()`)

64-bit machine arithmetic is modelled on `Nat` with explicit reduction
modulo `2^64`. -/

def M64 : Nat := 2 ^ 64

def P1 : Nat := 11400714785074694791
def P2 : Nat := 14029467366897019727
def P3 : Nat := 1609587929392839161
def P4 : Nat := 9650029242287828579
def P5 : Nat := 2870177450012600261

def add64 (a b : Nat) : Nat := (a + b) % M64

def mul64 (a b : Nat) : Nat := (a * b) % M64

def rotl64 (x r : Nat) : Nat := ((x <<< r) % M64) ||| (x >>> (64 - r))

/-- Little-endian 64-bit load of the first eight bytes. -/
def le64 : List Nat → Nat
  | b0 :: b1 :: b2 :: b3 :: b4 :: b5 :: b6 :: b7 :: _ =>
    b0 + 2 ^ 8 * b1 + 2 ^ 16 * b2 + 2 ^ 24 * b3 + 2 ^ 32 * b4 + 2 ^ 40 * b5 +
      2 ^ 48 * b6 + 2 ^ 56 * b7
  | _ => 0

/-- Little-endian 32-bit load of the first four bytes. -/
def le32 : List Nat → Nat
  | b0 :: b1 :: b2 :: b3 :: _ => b0 + 2 ^ 8 * b1 + 2 ^ 16 * b2 + 2 ^ 24 * b3
  | _ => 0

def xxhRound (acc input : Nat) : Nat :=
  mul64 (rotl64 (add64 acc (mul64 input P2)) 31) P1

def xxhMergeRound (acc v : Nat) : Nat :=
  add64 (mul64 (Nat.xor acc (xxhRound 0 v)) P1) P4

/-- Consume 32-byte stripes into the four lanes (`fuel ≥ b.length`
suffices, each step consumes 32 bytes). -/
def xxhStripes : Nat → Nat → Nat → Nat → Nat → List Nat → Nat × Nat × Nat × Nat × List Nat
  | 0, v1, v2, v3, v4, b => (v1, v2, v3, v4, b)
  | fuel + 1, v1, v2, v3, v4, b =>
    if 32 ≤ b.length then
      xxhStripes fuel (xxhRound v1 (le64 b)) (xxhRound v2 (le64 (b.drop 8)))
        (xxhRound v3 (le64 (b.drop 16))) (xxhRound v4 (le64 (b.drop 24))) (b.drop 32)
    else (v1, v2, v3, v4, b)

/-- Consume 8-byte chunks of the tail (`fuel ≥ b.length` suffices). -/
def xxhTail8 : Nat → Nat → List Nat → Nat × List Nat
  | 0, h64, b => (h64, b)
  | fuel + 1, h64, b =>
    if 8 ≤ b.length then
      xxhTail8 fuel (add64 (mul64 (rotl64 (Nat.xor h64 (xxhRound 0 (le64 b))) 27) P1) P4)
        (b.drop 8)
    else (h64, b)

/-- Consume the remaining single bytes. -/
def xxhTail1 (h64 : Nat) : List Nat → Nat
  | [] => h64
  | b :: rest => xxhTail1 (mul64 (rotl64 (Nat.xor h64 (mul64 b P5)) 11) P1) rest

def xxhAvalanche (h0 : Nat) : Nat :=
  let h1 := Nat.xor h0 (h0 >>> 33)
  let h2 := mul64 h1 P2
  let h3 := Nat.xor h2 (h2 >>> 29)
  let h4 := mul64 h3 P3
  Nat.xor h4 (h4 >>> 32)

/-- XXH64 of a byte string with the given seed. -/
def xxh64 (seed : Nat) (b : List Nat) : Nat :=
  let len := b.length
  let hrest :=
    if 32 ≤ len then
      let v1 := add64 (add64 seed P1) P2
      let v2 := add64 seed P2
      let v3 := seed % M64
      let v4 := (seed + (M64 - P1)) % M64
      match xxhStripes b.length v1 v2 v3 v4 b with
      | (w1, w2, w3, w4, r) =>
        let h := add64 (add64 (add64 (rotl64 w1 1) (rotl64 w2 7)) (rotl64 w3 12))
          (rotl64 w4 18)
        let h := xxhMergeRound h w1
        let h := xxhMergeRound h w2
        let h := xxhMergeRound h w3
        let h := xxhMergeRound h w4
        (h, r)
    else (add64 seed P5, b)
  let h1 := add64 hrest.1 len
  match xxhTail8 hrest.2.length h1 hrest.2 with
  | (h2, r2) =>
    let hr3 :=
      if 4 ≤ r2.length then
        (add64 (mul64 (rotl64 (Nat.xor h2 (mul64 (le32 r2) P1)) 23) P2) P3, r2.drop 4)
      else (h2, r2)
    xxhAvalanche (xxhTail1 hr3.1 hr3.2)

/-- UTF-8 encoding of one character (Go strings are UTF-8 byte strings). -/
def utf8Char (c : Char) : List Nat :=
  let n := c.toNat
  if n < 0x80 then [n]
  else if n < 0x800 then [0xC0 + n / 64, 0x80 + n % 64]
  else if n < 0x10000 then [0xE0 + n / 4096, 0x80 + (n / 64) % 64, 0x80 + n % 64]
  else [0xF0 + n / 262144, 0x80 + (n / 4096) % 64, 0x80 + (n / 64) % 64, 0x80 + n % 64]

/-- UTF-8 bytes of a Go string. -/
def utf8Bytes (s : List Char) : List Nat := (s.map utf8Char).flatten

/-! ## Shared record/bookkeeping types -/

/-- Layout constants of `src/index/hash_index.go`. -/
def PTR_SZ : Nat := 7
def PTR_MAX : Nat := 9999999
def IDXLEN_SZ : Nat := 4
def IDXLEN_MIN : Nat := 6
def IDXLEN_MAX : Nat := 1024
def DATLEN_MIN : Nat := 2
def DATLEN_MAX : Nat := 1024
def HASHTABLE_SIZE : Nat := 137
/-- `idx_header_off + idx_header_size` for the static index. -/
def FREE_OFF : Nat := 4
def HASH_OFF : Nat := FREE_OFF + PTR_SZ

/-- One chain record as it sits in the `.idx` (static) or `.bkt` (linear)
file: the 7-byte `NEXT_PTR` field, the 4-byte `IDXLEN` field, and the
`IDXLEN` payload bytes `key:datoff:datlen\n`. -/
structure IdxRec where
  ptr : Nat
  idxlen : Nat
  payload : List Char
deriving DecidableEq

/-- Go `error` values returned by the index code, by message. -/
inductive Err where
  /-- an unmodelled I/O failure (seek or read outside any record) -/
  | ioError
  /-- readIdx: "Invalid index record length %d" -/
  | invalidIdxLen
  /-- readIdx: "Corrupted index record ..., not ending with new line" -/
  | recNoNewline
  /-- readIdx: "Invalid index record: missing separators" -/
  | missingSeps
  /-- readIdx: "Invalid index record: too many separators (%d)" -/
  | tooManySeps
  /-- a strconv.ParseInt failure propagated out of readIdx -/
  | parseError
  /-- readIdx: "Starting data offset < 0" -/
  | negDatoff
  /-- readIdx: "Invalid data record length" -/
  | invalidDatLen
  /-- a short read: "Failed to read ..." -/
  | shortRead
  /-- readData: "Corrupted data record: missing newline" -/
  | dataNoNewline
  /-- store: "Invalid data length: %d" -/
  | invalidDataLength
  /-- store: "Record already exists with key: %s" -/
  | keyExists
  /-- store: "Record with key %s does not exist" -/
  | keyNotExists
  /-- writeIdx: "Invalid pointer: %d" -/
  | invalidPtr
  /-- writeIdx: "Invalid index record length" -/
  | invalidIdxRecLen
  /-- writePtr: "Invalid ptrval: %d" -/
  | invalidPtrVal
deriving DecidableEq

/-- Result of running a piece of Go code: a normal return value, a
returned `error`, or a `crash` (runtime panic / guaranteed
non-termination). -/
inductive Res (α : Type) where
  | ok : α → Res α
  | err : Err → Res α
  | crash : Res α
deriving DecidableEq

/-- `os.Seek` whence values used by the index code. -/
inductive Whence where
  | seekStart
  | seekEnd
deriving DecidableEq

/-- The payload `fmt.Sprintf("%s%c%d%c%d\\n", key, ':', datoff, ':', datlen)`
built by `writeIdx`. -/
def encodePayload (key : List Char) (doff dlen : Int) : List Char :=
  key ++ ':' :: (intChars doff ++ ':' :: (intChars dlen ++ ['\n']))

/-- The `op` argument of `store`. -/
inductive StoreOp where
  | insert
  | update
  | upsert
deriving DecidableEq

/-- Replace the record stored at offset `off` (in-place file rewrite), or
append the entry when the offset is fresh. -/
def setSlot : List (Nat × IdxRec) → Nat → IdxRec → List (Nat × IdxRec)
  | [], off, rec => [(off, rec)]
  | p :: ps, off, rec => if p.1 = off then (off, rec) :: ps else p :: setSlot ps off rec

namespace HashIndex

/-! ## Static hash index (`src/index/hash_index.go`) -/

/-- The three mutable regions of the two files owned by a static
`HashIndex`: the free pointer at `FREE_OFF`, the 137 bucket pointers
starting at `HASH_OFF`, the chain records appended after the initial 971
bytes of `.idx` (keyed by byte offset), and the `.dat` byte string.
`idxEnd` is the current size of `.idx`, where `SeekEnd` appends land. -/
structure DB where
  free : Nat
  buckets : List Nat
  slots : List (Nat × IdxRec)
  idxEnd : Nat
  dat : List Char
deriving DecidableEq

/-- The per-operation scratch fields on the Go `HashIndex` struct. -/
structure Handle where
  idxbuf : List Char
  datbuf : List Char
  idxoff : Nat
  idxlen : Nat
  datoff : Int
  datlen : Int
  ptrval : Nat
  ptroff : Nat
  chainoff : Nat
deriving DecidableEq

/-- `dbHash`: `XXH64(key, seed 42) mod 137`. -/
def dbHash (key : List Char) : Nat := xxh64 42 (utf8Bytes key) % HASHTABLE_SIZE

/-- A freshly `Open`ed, empty database: header + 138 zero pointers +
newline, so `.idx` is 971 bytes, and `.dat` is empty. -/
def initDB : DB :=
  { free := 0
    buckets := List.replicate HASHTABLE_SIZE 0
    idxEnd := 4 + (HASHTABLE_SIZE + 1) * PTR_SZ + 1
    slots := []
    dat := [] }

/-- A fresh `HashIndex` handle (Go zero values). -/
def initHandle : Handle :=
  { idxbuf := [], datbuf := [], idxoff := 0, idxlen := 0, datoff := 0,
    datlen := 0, ptrval := 0, ptroff := 0, chainoff := 0 }

/-- Which bucket-pointer cell (if any) lives at byte offset `off` of
`.idx`. -/
def bucketIndex? (off : Nat) : Option Nat :=
  if HASH_OFF ≤ off && off < HASH_OFF + PTR_SZ * HASHTABLE_SIZE &&
      (off - HASH_OFF) % PTR_SZ == 0 then
    some ((off - HASH_OFF) / PTR_SZ)
  else none

/-- `readPtr`: read a 7-byte ASCII chain pointer at `off`. -/
def readPtr (db : DB) (off : Nat) : Res Nat :=
  if off = FREE_OFF then .ok db.free
  else
    match bucketIndex? off with
    | some b => .ok (db.buckets.getD b 0)
    | none =>
      match db.slots.lookup off with
      | some rec => .ok rec.ptr
      | none => .err .ioError

/-- `writePtr`: validate and overwrite a 7-byte ASCII chain pointer. -/
def writePtr (db : DB) (off : Nat) (ptrval : Nat) : Res Unit × DB :=
  if PTR_MAX < ptrval then (.err .invalidPtrVal, db)
  else if off = FREE_OFF then (.ok (), { db with free := ptrval })
  else
    match bucketIndex? off with
    | some b => (.ok (), { db with buckets := db.buckets.set b ptrval })
    | none =>
      match db.slots.lookup off with
      | some rec =>
        (.ok (), { db with slots := setSlot db.slots off { rec with ptr := ptrval } })
      | none => (.err .ioError, db)

/-- `readIdx`: read and decode the chain record at offset `off`,
populating the handle's scratch fields; returns the record's `NEXT_PTR`.
A record whose payload splits into fewer than three `':'`-separated
fields makes the Go code index `parts[1]`/`parts[2]` out of range: a
panic, modelled as `crash`. -/
def readIdx (db : DB) (h : Handle) (off : Nat) : Res Nat × Handle :=
  match db.slots.lookup off with
  | none => (.err .shortRead, h)
  | some rec =>
    let h := { h with idxoff := off, ptrval := rec.ptr, idxlen := rec.idxlen }
    if rec.idxlen < IDXLEN_MIN ∨ IDXLEN_MAX < rec.idxlen then (.err .invalidIdxLen, h)
    else if rec.payload.length ≠ rec.idxlen then (.err .shortRead, h)
    else if ¬ testNewLine rec.payload then (.err .recNoNewline, h)
    else
      let parts := splitOnChar ':' rec.payload.dropLast
      if parts.length = 0 then (.err .missingSeps, h)
      else if 3 < parts.length then (.err .tooManySeps, h)
      else
        let h := { h with idxbuf := parts.headD [] }
        match parts.get? 1 with
        | none => (.crash, h)
        | some p1 =>
          match parseInt p1 with
          | none => (.err .parseError, h)
          | some doff =>
            if doff < 0 then (.err .negDatoff, { h with datoff := doff })
            else
              let h := { h with datoff := doff }
              match parts.get? 2 with
              | none => (.crash, h)
              | some p2 =>
                match parseInt p2 with
                | none => (.err .parseError, h)
                | some dlen =>
                  let h := { h with datlen := dlen }
                  if dlen < 0 ∨ (DATLEN_MAX : Int) < dlen then (.err .invalidDatLen, h)
                  else (.ok rec.ptr, h)

/-- `readData`: read `datlen` bytes of `.dat` at `datoff`, check and
strip the trailing newline. -/
def readData (db : DB) (h : Handle) : Res (List Char) × Handle :=
  if h.datoff < 0 then (.err .ioError, h)
  else if h.datlen < 0 then (.crash, h)
  else
    let n := h.datlen.toNat
    let bytes := (db.dat.drop h.datoff.toNat).take n
    if bytes.length ≠ n then (.err .shortRead, h)
    else if ¬ testNewLine bytes then (.err .dataNoNewline, h)
    else (.ok bytes.dropLast, { h with datbuf := bytes.dropLast })

/-- `writeData`: write `data` plus a newline into `.dat`, either appended
at the end of the file or over the bytes at `off`. -/
def writeData (db : DB) (h : Handle) (data : List Char) (off : Int) (whence : Whence) :
    Res Unit × DB × Handle :=
  match whence with
  | .seekEnd =>
    (.ok (), { db with dat := db.dat ++ data ++ ['\n'] },
      { h with datoff := (db.dat.length : Int), datlen := (data.length : Int) + 1 })
  | .seekStart =>
    if off < 0 then (.err .ioError, db, h)
    else
      let o := off.toNat
      (.ok (),
        { db with dat := db.dat.take o ++ List.replicate (o - db.dat.length) (Char.ofNat 0) ++
            data ++ ['\n'] ++ db.dat.drop (o + data.length + 1) },
        { h with datoff := off, datlen := (data.length : Int) + 1 })

/-- `writeIdx`: encode and write a chain record (append or in place).
Note that the Go code validates the handle's scratch `ptrval`, not the
`ptrval` argument it actually writes. -/
def writeIdx (db : DB) (h : Handle) (key : List Char) (off : Nat) (whence : Whence)
    (ptrval : Nat) : Res Unit × DB × Handle :=
  if PTR_MAX < h.ptrval then (.err .invalidPtr, db, h)
  else
    let idxbuf := encodePayload key h.datoff h.datlen
    let h := { h with idxbuf := idxbuf }
    let len := idxbuf.length
    if len < IDXLEN_MIN ∨ IDXLEN_MAX < len then (.err .invalidIdxRecLen, db, h)
    else
      match whence with
      | .seekEnd =>
        (.ok (),
          { db with slots := setSlot db.slots db.idxEnd ⟨ptrval, len, idxbuf⟩,
                    idxEnd := db.idxEnd + PTR_SZ + IDXLEN_SZ + len },
          { h with idxoff := db.idxEnd })
      | .seekStart =>
        (.ok (), { db with slots := setSlot db.slots off ⟨ptrval, len, idxbuf⟩ },
          { h with idxoff := off })

/-- The chain walk of `findAndLock`.  `fuel` bounds the number of
iterations; `db.slots.length + 1` steps always suffice for a walk that
terminates, and a cyclic chain (on which the Go loop would never
terminate) exhausts the fuel and crashes. -/
def falLoop (db : DB) (key : List Char) : Nat → Handle → Nat → Res Bool × Handle
  | _, h, 0 => (.ok false, h)
  | 0, h, _ + 1 => (.crash, h)
  | fuel + 1, h, o + 1 =>
    match readIdx db h (o + 1) with
    | (.ok next, h1) =>
      if h1.idxbuf = key then (.ok true, h1)
      else falLoop db key fuel { h1 with ptroff := o + 1 } next
    | (.err e, h1) => (.err e, h1)
    | (.crash, h1) => (.crash, h1)

/-- `findAndLock`: locate `key` on its hash chain.  A failure of the
initial bucket-pointer read is swallowed and reported as "not found"
with a nil error, exactly as in the source. -/
def findAndLock (db : DB) (h : Handle) (key : List Char) : Res Bool × Handle :=
  let chainoff := HASH_OFF + PTR_SZ * dbHash key
  let h := { h with chainoff := chainoff, ptroff := chainoff }
  match readPtr db chainoff with
  | .ok offset => falLoop db key (db.slots.length + 1) h offset
  | _ => (.ok false, h)

/-- The free-list walk of `findFree`, carrying the predecessor offset.
The Go loop ignores `readIdx` errors: on one the offset becomes `-1` and
every later iteration fails the same way, so the loop never terminates
(modelled as `crash`). -/
def ffLoop (db : DB) (keylen datlen : Int) :
    Nat → Handle → Nat → Nat → Res (Bool × Nat) × Handle
  | _, h, saveOffset, 0 => (.ok (false, saveOffset), h)
  | 0, h, _, _ + 1 => (.crash, h)
  | fuel + 1, h, saveOffset, o + 1 =>
    match readIdx db h (o + 1) with
    | (.ok next, h1) =>
      if (h1.idxbuf.length : Int) = keylen ∧ h1.datlen = datlen then
        (.ok (true, saveOffset), h1)
      else ffLoop db keylen datlen fuel h1 (o + 1) next
    | (_, h1) => (.crash, h1)

/-- `findFree`: search the free list for a record whose key length and
stored data length match exactly; unlink and return it if found.  All
errors below the initial lock are dropped by the source. -/
def findFree (db : DB) (h : Handle) (keylen datlen : Int) : Res Bool × DB × Handle :=
  match readPtr db FREE_OFF with
  | .ok off0 =>
    match ffLoop db keylen datlen (db.slots.length + 1) h FREE_OFF off0 with
    | (.ok (true, saveOffset), h1) =>
      let r := writePtr db saveOffset h1.ptrval
      (.ok true, r.2, h1)
    | (.ok (false, _), h1) => (.ok false, db, h1)
    | (.err e, h1) => (.err e, db, h1)
    | (.crash, h1) => (.crash, db, h1)
  | _ => (.crash, db, h)

/-- `_delete`: blank the data record and the key, push the chain record
onto the free list, and unlink it from its chain.  The `writeData`
result is dropped by the source.  `datbuf` is whatever the handle last
read — `findAndLock` does not populate it. -/
def deleteLocked (db : DB) (h : Handle) : Res Unit × DB × Handle :=
  let h := { h with datbuf := List.replicate h.datbuf.length ' ',
                    idxbuf := List.replicate h.idxbuf.length ' ' }
  match writeData db h h.datbuf h.datoff .seekStart with
  | (_, db1, h1) =>
    match readPtr db1 FREE_OFF with
    | .ok freeptr =>
      let saveptr := h1.ptrval
      match writeIdx db1 h1 h1.idxbuf h1.idxoff .seekStart freeptr with
      | (.ok _, db2, h2) =>
        match writePtr db2 FREE_OFF h2.idxoff with
        | (.ok _, db3) =>
          let r := writePtr db3 h2.ptroff saveptr
          (r.1, r.2, h2)
        | (.err e, db3) => (.err e, db3, h2)
        | (.crash, db3) => (.crash, db3, h2)
      | (.err e, db2, h2) => (.err e, db2, h2)
      | (.crash, db2, h2) => (.crash, db2, h2)
    | .err e => (.err e, db1, h1)
    | .crash => (.crash, db1, h1)

/-- `store`: validate the value length, find the key, and insert, update
in place, or delete-and-reinsert.  On the found path with a different
value length the source drops the errors of the final three writes. -/
def store (db : DB) (h : Handle) (key value : List Char) (op : StoreOp) :
    Res Unit × DB × Handle :=
  let keyLen : Int := key.length
  let valueLen : Int := value.length
  if valueLen < (DATLEN_MIN : Int) ∨ (DATLEN_MAX : Int) < valueLen then
    (.err .invalidDataLength, db, h)
  else
    match findAndLock db h key with
    | (.ok found, h1) =>
      if ¬ found then
        if op = .update then (.err .keyNotExists, db, h1)
        else
          match readPtr db h1.chainoff with
          | .ok ptrval =>
            match findFree db h1 keyLen valueLen with
            | (.ok foundFree, db1, h2) =>
              if ¬ foundFree then
                match writeData db1 h2 value 0 .seekEnd with
                | (.ok _, db2, h3) =>
                  match writeIdx db2 h3 key 0 .seekEnd ptrval with
                  | (.ok _, db3, h4) =>
                    let r := writePtr db3 h4.chainoff h4.idxoff
                    (r.1, r.2, h4)
                  | (.err e, db3, h4) => (.err e, db3, h4)
                  | (.crash, db3, h4) => (.crash, db3, h4)
                | (.err e, db2, h3) => (.err e, db2, h3)
                | (.crash, db2, h3) => (.crash, db2, h3)
              else
                match writeData db1 h2 value h2.datoff .seekStart with
                | (.ok _, db2, h3) =>
                  match writeIdx db2 h3 key h3.idxoff .seekStart ptrval with
                  | (.ok _, db3, h4) =>
                    let r := writePtr db3 h4.chainoff h4.idxoff
                    (r.1, r.2, h4)
                  | (.err e, db3, h4) => (.err e, db3, h4)
                  | (.crash, db3, h4) => (.crash, db3, h4)
                | (.err e, db2, h3) => (.err e, db2, h3)
                | (.crash, db2, h3) => (.crash, db2, h3)
            | (.err e, db1, h2) => (.err e, db1, h2)
            | (.crash, db1, h2) => (.crash, db1, h2)
          | .err e => (.err e, db, h1)
          | .crash => (.crash, db, h1)
      else
        if op = .insert then (.err .keyExists, db, h1)
        else if valueLen ≠ h1.datlen then
          match deleteLocked db h1 with
          | (.ok _, db1, h2) =>
            match readPtr db1 h2.chainoff with
            | .ok ptrval =>
              match writeData db1 h2 value 0 .seekEnd with
              | (_, db2, h3) =>
                match writeIdx db2 h3 key 0 .seekEnd ptrval with
                | (_, db3, h4) =>
                  let r := writePtr db3 h4.chainoff h4.idxoff
                  (.ok (), r.2, h4)
            | .err e => (.err e, db1, h2)
            | .crash => (.crash, db1, h2)
          | (.err e, db1, h2) => (.err e, db1, h2)
          | (.crash, db1, h2) => (.crash, db1, h2)
        else
          match writeData db h1 value h1.datoff .seekStart with
          | (_, db1, h2) => (.ok (), db1, h2)
    | (.err e, h1) => (.err e, db, h1)
    | (.crash, h1) => (.crash, db, h1)

/-- `Fetch`: look the key up and read its data record; a missing key
yields the empty string with a nil error. -/
def fetch (db : DB) (h : Handle) (key : List Char) : Res (List Char) × Handle :=
  match findAndLock db h key with
  | (.ok found, h1) =>
    if ¬ found then (.ok [], h1)
    else
      match readData db h1 with
      | (.ok v, h2) => (.ok v, h2)
      | (.err e, h2) => (.err e, h2)
      | (.crash, h2) => (.crash, h2)
  | (.err e, h1) => (.err e, h1)
  | (.crash, h1) => (.crash, h1)

/-- `Delete`: a found key is deleted by `_delete`; a missing key is a
no-op with a nil error. -/
def delete (db : DB) (h : Handle) (key : List Char) : Res Unit × DB × Handle :=
  match findAndLock db h key with
  | (.ok found, h1) => if found then deleteLocked db h1 else (.ok (), db, h1)
  | (.err e, h1) => (.err e, db, h1)
  | (.crash, h1) => (.crash, db, h1)

/-- `Insert`. -/
def insert (db : DB) (h : Handle) (key value : List Char) : Res Unit × DB × Handle :=
  store db h key value .insert

/-- `Update`. -/
def update (db : DB) (h : Handle) (key value : List Char) : Res Unit × DB × Handle :=
  store db h key value .update

/-- `Upsert`. -/
def upsert (db : DB) (h : Handle) (key value : List Char) : Res Unit × DB × Handle :=
  store db h key value .upsert

end HashIndex

namespace LinearHashIndex

/-! ## Linear hash index (`src/index/linear_hash_index/linear_hash_index.go`) -/

/-- `hashtable_size`: the initial bucket count of the linear variant. -/
def hashtable_size : Nat := 2
/-- `idx_header_size`: `idxtype(3) + nbuckets(20) + split(20) + nrecords(20) + newline`. -/
def idx_header_size : Nat := 64
def free_off : Nat := idx_header_size
def hash_off : Nat := free_off + PTR_SZ

/-- Which of the two pointer-bearing files an offset refers to: `.idx`
(header, free pointer, bucket array) or `.bkt` (chain records). -/
inductive PFile where
  | idx
  | bkt
deriving DecidableEq

/-- The mutable state of a linear-hash database: the header triple
`(nbuckets, split, nrecords)`, the free pointer and the growing bucket
array in `.idx`, the chain records in `.bkt` (keyed by byte offset,
`bktEnd` = current size of `.bkt`, which starts at 1 because creation
writes a single newline), and the `.dat` byte string. -/
structure DB where
  nbuckets : Nat
  splitp : Nat
  nrecords : Int
  free : Nat
  buckets : List Nat
  slots : List (Nat × IdxRec)
  bktEnd : Nat
  dat : List Char
deriving DecidableEq

/-- The scratch fields of the Go `LinearHashIndex` struct, including the
in-memory copies `i`, `s`, `nhash`, `nrecords` of the header. -/
structure Handle where
  idxbuf : List Char
  datbuf : List Char
  idxoff : Nat
  idxlen : Nat
  datoff : Int
  datlen : Int
  ptrval : Nat
  ptroff : Nat
  chainoff : Nat
  i : Nat
  s : Nat
  nhash : Nat
  nrecords : Int
deriving DecidableEq

/-- A freshly created linear database: two zero buckets, split pointer 0,
no records, `.bkt` holding a single newline byte. -/
def initDB : DB :=
  { nbuckets := hashtable_size, splitp := 0, nrecords := 0, free := 0,
    buckets := List.replicate hashtable_size 0, slots := [], bktEnd := 1, dat := [] }

/-- A fresh handle as set up by `Open`. -/
def initHandle : Handle :=
  { idxbuf := [], datbuf := [], idxoff := 0, idxlen := 0, datoff := 0, datlen := 0,
    ptrval := 0, ptroff := 0, chainoff := 0, i := 1, s := 0,
    nhash := hashtable_size, nrecords := 0 }

/-- `⌈log2 n⌉` by structural recursion (`fuel ≥ n` suffices). -/
def ceilLog2Aux : Nat → Nat → Nat
  | 0, _ => 0
  | fuel + 1, n => if n ≤ 1 then 0 else ceilLog2Aux fuel ((n + 1) / 2) + 1

/-- `⌈log2 n⌉`. -/
def ceilLog2 (n : Nat) : Nat := ceilLog2Aux n n

/-- `readHeader`: copy the on-disk header into the handle and recompute
the table depth `i = ceil(log2 nbuckets)` (the Go code computes it with
`math.Ceil(math.Log2(float64(nbuckets)))`, which is exact on every
reachable value). -/
def readHeader (db : DB) (h : Handle) : Handle :=
  { h with nhash := db.nbuckets, s := db.splitp, nrecords := db.nrecords,
           i := ceilLog2 db.nbuckets }

/-- `writeHeader`: write the handle's header copies back to `.idx`. -/
def writeHeader (db : DB) (h : Handle) : DB :=
  { db with nbuckets := h.nhash, splitp := h.s, nrecords := h.nrecords }

/-- `updateHeader`: bump `nrecords` by the sign of `change` and persist
the header. -/
def updateHeader (db : DB) (h : Handle) (change : Int) : DB × Handle :=
  let h :=
    if 0 < change then { h with nrecords := h.nrecords + 1 }
    else { h with nrecords := h.nrecords - 1 }
  (writeHeader db h, h)

/-- `dbHash`: the two-level hash. `b = XXH64(key, 42) mod 2^i`; a value
not yet covered by the table folds back with `xor 2^(i-1)` (the shift is
only evaluated on that branch, so `i = 0` cannot make it negative). -/
def dbHash (h : Handle) (key : List Char) : Nat :=
  let hash := xxh64 42 (utf8Bytes key)
  let bktidx := hash % 2 ^ h.i
  if bktidx < h.nhash then bktidx else bktidx ^^^ 2 ^ (h.i - 1)

/-- `readPtr`: read a 7-byte pointer from the given file. -/
def readPtr (db : DB) (off : Nat) (f : PFile) : Res Nat :=
  match f with
  | .idx =>
    if off = free_off then .ok db.free
    else
      if hash_off ≤ off && (off - hash_off) % PTR_SZ == 0 &&
          (off - hash_off) / PTR_SZ < db.buckets.length then
        .ok (db.buckets.getD ((off - hash_off) / PTR_SZ) 0)
      else .err .ioError
  | .bkt =>
    match db.slots.lookup off with
    | some rec => .ok rec.ptr
    | none => .err .ioError

/-- `writePtr`: validate and overwrite a 7-byte pointer in the given
file. -/
def writePtr (db : DB) (f : PFile) (off : Nat) (ptrval : Nat) : Res Unit × DB :=
  if PTR_MAX < ptrval then (.err .invalidPtrVal, db)
  else
    match f with
    | .idx =>
      if off = free_off then (.ok (), { db with free := ptrval })
      else
        if hash_off ≤ off && (off - hash_off) % PTR_SZ == 0 &&
            (off - hash_off) / PTR_SZ < db.buckets.length then
          (.ok (), { db with buckets := db.buckets.set ((off - hash_off) / PTR_SZ) ptrval })
        else (.err .ioError, db)
    | .bkt =>
      match db.slots.lookup off with
      | some rec =>
        (.ok (), { db with slots := setSlot db.slots off { rec with ptr := ptrval } })
      | none => (.err .ioError, db)

/-- `readIdx` of the linear variant: identical decoding to the static
one, reading from `.bkt`. -/
def readIdx (db : DB) (h : Handle) (off : Nat) : Res Nat × Handle :=
  match db.slots.lookup off with
  | none => (.err .shortRead, h)
  | some rec =>
    let h := { h with idxoff := off, ptrval := rec.ptr, idxlen := rec.idxlen }
    if rec.idxlen < IDXLEN_MIN ∨ IDXLEN_MAX < rec.idxlen then (.err .invalidIdxLen, h)
    else if rec.payload.length ≠ rec.idxlen then (.err .shortRead, h)
    else if ¬ testNewLine rec.payload then (.err .recNoNewline, h)
    else
      let parts := splitOnChar ':' rec.payload.dropLast
      if parts.length = 0 then (.err .missingSeps, h)
      else if 3 < parts.length then (.err .tooManySeps, h)
      else
        let h := { h with idxbuf := parts.headD [] }
        match parts.get? 1 with
        | none => (.crash, h)
        | some p1 =>
          match parseInt p1 with
          | none => (.err .parseError, h)
          | some doff =>
            if doff < 0 then (.err .negDatoff, { h with datoff := doff })
            else
              let h := { h with datoff := doff }
              match parts.get? 2 with
              | none => (.crash, h)
              | some p2 =>
                match parseInt p2 with
                | none => (.err .parseError, h)
                | some dlen =>
                  let h := { h with datlen := dlen }
                  if dlen < 0 ∨ (DATLEN_MAX : Int) < dlen then (.err .invalidDatLen, h)
                  else (.ok rec.ptr, h)

/-- `readData` (same as the static variant). -/
def readData (db : DB) (h : Handle) : Res (List Char) × Handle :=
  if h.datoff < 0 then (.err .ioError, h)
  else if h.datlen < 0 then (.crash, h)
  else
    let n := h.datlen.toNat
    let bytes := (db.dat.drop h.datoff.toNat).take n
    if bytes.length ≠ n then (.err .shortRead, h)
    else if ¬ testNewLine bytes then (.err .dataNoNewline, h)
    else (.ok bytes.dropLast, { h with datbuf := bytes.dropLast })

/-- `writeData` (same as the static variant). -/
def writeData (db : DB) (h : Handle) (data : List Char) (off : Int) (whence : Whence) :
    Res Unit × DB × Handle :=
  match whence with
  | .seekEnd =>
    (.ok (), { db with dat := db.dat ++ data ++ ['\n'] },
      { h with datoff := (db.dat.length : Int), datlen := (data.length : Int) + 1 })
  | .seekStart =>
    if off < 0 then (.err .ioError, db, h)
    else
      let o := off.toNat
      (.ok (),
        { db with dat := db.dat.take o ++ List.replicate (o - db.dat.length) (Char.ofNat 0) ++
            data ++ ['\n'] ++ db.dat.drop (o + data.length + 1) },
        { h with datoff := off, datlen := (data.length : Int) + 1 })

/-- `writeIdx`: encode and write a chain record into `.bkt`. -/
def writeIdx (db : DB) (h : Handle) (key : List Char) (off : Nat) (whence : Whence)
    (ptrval : Nat) : Res Unit × DB × Handle :=
  if PTR_MAX < h.ptrval then (.err .invalidPtr, db, h)
  else
    let idxbuf := encodePayload key h.datoff h.datlen
    let h := { h with idxbuf := idxbuf }
    let len := idxbuf.length
    if len < IDXLEN_MIN ∨ IDXLEN_MAX < len then (.err .invalidIdxRecLen, db, h)
    else
      match whence with
      | .seekEnd =>
        (.ok (),
          { db with slots := setSlot db.slots db.bktEnd ⟨ptrval, len, idxbuf⟩,
                    bktEnd := db.bktEnd + PTR_SZ + IDXLEN_SZ + len },
          { h with idxoff := db.bktEnd })
      | .seekStart =>
        (.ok (), { db with slots := setSlot db.slots off ⟨ptrval, len, idxbuf⟩ },
          { h with idxoff := off })

/-- The chain walk of the linear `findAndLock`. -/
def falLoop (db : DB) (key : List Char) : Nat → Handle → Nat → Res Bool × Handle
  | _, h, 0 => (.ok false, h)
  | 0, h, _ + 1 => (.crash, h)
  | fuel + 1, h, o + 1 =>
    match readIdx db h (o + 1) with
    | (.ok next, h1) =>
      if h1.idxbuf = key then (.ok true, h1)
      else falLoop db key fuel { h1 with ptroff := o + 1 } next
    | (.err e, h1) => (.err e, h1)
    | (.crash, h1) => (.crash, h1)

/-- `findAndLock`: locate `key` on the chain of its two-level hash
bucket.  Unlike the static variant, a failed bucket-pointer read is
propagated as an error here. -/
def findAndLock (db : DB) (h : Handle) (key : List Char) : Res Bool × Handle :=
  let chainoff := PTR_SZ * dbHash h key + hash_off
  let h := { h with chainoff := chainoff, ptroff := chainoff }
  match readPtr db chainoff .idx with
  | .ok offset => falLoop db key (db.slots.length + 1) h offset
  | .err e => (.err e, h)
  | .crash => (.crash, h)

/-- The free-list walk of the linear `findFree` (this variant checks the
`readIdx` error). -/
def ffLoop (db : DB) (keylen datlen : Int) :
    Nat → Handle → Nat → Nat → Res (Bool × Nat) × Handle
  | _, h, saveOffset, 0 => (.ok (false, saveOffset), h)
  | 0, h, _, _ + 1 => (.crash, h)
  | fuel + 1, h, saveOffset, o + 1 =>
    match readIdx db h (o + 1) with
    | (.ok next, h1) =>
      if (h1.idxbuf.length : Int) = keylen ∧ h1.datlen = datlen then
        (.ok (true, saveOffset), h1)
      else ffLoop db keylen datlen fuel h1 (o + 1) next
    | (.err e, h1) => (.err e, h1)
    | (.crash, h1) => (.crash, h1)

/-- `findFree` of the linear variant; the unlinking `writePtr` targets
`.bkt` and its result is dropped. -/
def findFree (db : DB) (h : Handle) (keylen datlen : Int) : Res Bool × DB × Handle :=
  match readPtr db free_off .idx with
  | .ok off0 =>
    match ffLoop db keylen datlen (db.slots.length + 1) h free_off off0 with
    | (.ok (true, saveOffset), h1) =>
      let r := writePtr db .bkt saveOffset h1.ptrval
      (.ok true, r.2, h1)
    | (.ok (false, _), h1) => (.ok false, db, h1)
    | (.err e, h1) => (.err e, db, h1)
    | (.crash, h1) => (.crash, db, h1)
  | _ => (.crash, db, h)

/-- `_delete` of the linear variant: the final predecessor rewrite goes
to `.idx` when the predecessor is the bucket slot itself
(`ptroff = chainoff`) and to `.bkt` otherwise. -/
def deleteLocked (db : DB) (h : Handle) : Res Unit × DB × Handle :=
  let h := { h with datbuf := List.replicate h.datbuf.length ' ',
                    idxbuf := List.replicate h.idxbuf.length ' ' }
  match writeData db h h.datbuf h.datoff .seekStart with
  | (_, db1, h1) =>
    match readPtr db1 free_off .idx with
    | .ok freeptr =>
      let saveptr := h1.ptrval
      match writeIdx db1 h1 h1.idxbuf h1.idxoff .seekStart freeptr with
      | (.ok _, db2, h2) =>
        match writePtr db2 .idx free_off h2.idxoff with
        | (.ok _, db3) =>
          let r :=
            if h2.ptroff ≠ h2.chainoff then writePtr db3 .bkt h2.ptroff saveptr
            else writePtr db3 .idx h2.ptroff saveptr
          (r.1, r.2, h2)
        | (.err e, db3) => (.err e, db3, h2)
        | (.crash, db3) => (.crash, db3, h2)
      | (.err e, db2, h2) => (.err e, db2, h2)
      | (.crash, db2, h2) => (.crash, db2, h2)
    | .err e => (.err e, db1, h1)
    | .crash => (.crash, db1, h1)

/-- `delete2`: find and delete, reporting whether the key was found. -/
def delete2 (db : DB) (h : Handle) (key : List Char) : Res Bool × DB × Handle :=
  match findAndLock db h key with
  | (.ok found, h1) =>
    if found then
      match deleteLocked db h1 with
      | (.ok _, db1, h2) => (.ok true, db1, h2)
      | (.err e, db1, h2) => (.err e, db1, h2)
      | (.crash, db1, h2) => (.crash, db1, h2)
    else (.ok false, db, h1)
  | (.err e, h1) => (.err e, db, h1)
  | (.crash, h1) => (.crash, db, h1)

/-- `Delete`: read the header, then `delete2`.  The `updateHeader(-1)`
call is commented out in the source, so `nrecords` is never decremented
by a delete. -/
def delete (db : DB) (h : Handle) (key : List Char) : Res Unit × DB × Handle :=
  let h := readHeader db h
  match delete2 db h key with
  | (.ok _, db1, h1) => (.ok (), db1, h1)
  | (.err e, db1, h1) => (.err e, db1, h1)
  | (.crash, db1, h1) => (.crash, db1, h1)

/-- `store` of the linear variant: reads the header first, then proceeds
as the static variant (chain records in `.bkt`, bucket pointers in
`.idx`). -/
def store (db : DB) (h : Handle) (key value : List Char) (op : StoreOp) :
    Res Unit × DB × Handle :=
  let h := readHeader db h
  let keyLen : Int := key.length
  let valueLen : Int := value.length
  if valueLen < (DATLEN_MIN : Int) ∨ (DATLEN_MAX : Int) < valueLen then
    (.err .invalidDataLength, db, h)
  else
    match findAndLock db h key with
    | (.ok found, h1) =>
      if ¬ found then
        if op = .update then (.err .keyNotExists, db, h1)
        else
          match readPtr db h1.chainoff .idx with
          | .ok ptrval =>
            match findFree db h1 keyLen valueLen with
            | (.ok foundFree, db1, h2) =>
              if ¬ foundFree then
                match writeData db1 h2 value 0 .seekEnd with
                | (.ok _, db2, h3) =>
                  match writeIdx db2 h3 key 0 .seekEnd ptrval with
                  | (.ok _, db3, h4) =>
                    let r := writePtr db3 .idx h4.chainoff h4.idxoff
                    (r.1, r.2, h4)
                  | (.err e, db3, h4) => (.err e, db3, h4)
                  | (.crash, db3, h4) => (.crash, db3, h4)
                | (.err e, db2, h3) => (.err e, db2, h3)
                | (.crash, db2, h3) => (.crash, db2, h3)
              else
                match writeData db1 h2 value h2.datoff .seekStart with
                | (.ok _, db2, h3) =>
                  match writeIdx db2 h3 key h3.idxoff .seekStart ptrval with
                  | (.ok _, db3, h4) =>
                    let r := writePtr db3 .idx h4.chainoff h4.idxoff
                    (r.1, r.2, h4)
                  | (.err e, db3, h4) => (.err e, db3, h4)
                  | (.crash, db3, h4) => (.crash, db3, h4)
                | (.err e, db2, h3) => (.err e, db2, h3)
                | (.crash, db2, h3) => (.crash, db2, h3)
            | (.err e, db1, h2) => (.err e, db1, h2)
            | (.crash, db1, h2) => (.crash, db1, h2)
          | .err e => (.err e, db, h1)
          | .crash => (.crash, db, h1)
      else
        if op = .insert then (.err .keyExists, db, h1)
        else if valueLen ≠ h1.datlen then
          match deleteLocked db h1 with
          | (.ok _, db1, h2) =>
            match readPtr db1 h2.chainoff .idx with
            | .ok ptrval =>
              match writeData db1 h2 value 0 .seekEnd with
              | (_, db2, h3) =>
                match writeIdx db2 h3 key 0 .seekEnd ptrval with
                | (_, db3, h4) =>
                  let r := writePtr db3 .idx h4.chainoff h4.idxoff
                  (.ok (), r.2, h4)
            | .err e => (.err e, db1, h2)
            | .crash => (.crash, db1, h2)
          | (.err e, db1, h2) => (.err e, db1, h2)
          | (.crash, db1, h2) => (.crash, db1, h2)
        else
          match writeData db h1 value h1.datoff .seekStart with
          | (_, db1, h2) => (.ok (), db1, h2)
    | (.err e, h1) => (.err e, db, h1)
    | (.crash, h1) => (.crash, db, h1)

/-- `Fetch` (reads the header first; result as in the static variant). -/
def fetch (db : DB) (h : Handle) (key : List Char) : Res (List Char) × Handle :=
  let h := readHeader db h
  match findAndLock db h key with
  | (.ok found, h1) =>
    if ¬ found then (.ok [], h1)
    else
      match readData db h1 with
      | (.ok v, h2) => (.ok v, h2)
      | (.err e, h2) => (.err e, h2)
      | (.crash, h2) => (.crash, h2)
  | (.err e, h1) => (.err e, h1)
  | (.crash, h1) => (.crash, h1)

/-- The rehash loop of `split`, walking the old chain and re-threading
every record whose new bucket differs from the one being split.
`newFile`/`newOff` track the tail of the new chain, `oldFile` the file
holding the predecessor pointer on the old chain. -/
def rehashLoop (oldS : Nat) :
    Nat → DB → Handle → PFile → Nat → PFile → Nat → Res Unit × DB × Handle
  | _, db, h, _, _, _, 0 => (.ok (), db, h)
  | 0, db, h, _, _, _, _ + 1 => (.crash, db, h)
  | fuel + 1, db, h, newFile, newOff, oldFile, o + 1 =>
    match readIdx db h (o + 1) with
    | (.ok next, h1) =>
      let chainOff := dbHash h1 h1.idxbuf
      if chainOff ≠ oldS then
        match writePtr db newFile newOff (o + 1) with
        | (.ok _, db1) =>
          match writePtr db1 oldFile h1.ptroff next with
          | (.ok _, db2) =>
            rehashLoop oldS fuel db2 h1 .bkt (o + 1) oldFile next
          | (.err e, db2) => (.err e, db2, h1)
          | (.crash, db2) => (.crash, db2, h1)
        | (.err e, db1) => (.err e, db1, h1)
        | (.crash, db1) => (.crash, db1, h1)
      else
        rehashLoop oldS fuel db { h1 with ptroff := o + 1 } newFile newOff .bkt next
    | (.err e, h1) => (.err e, db, h1)
    | (.crash, h1) => (.crash, db, h1)

/-- `split`: append a fresh zero bucket pointer at the end of `.idx`,
bump `nbuckets` (and `i` when the depth is exhausted), advance the split
pointer (resetting it to 0 when `2·split` reaches `nbuckets`), then
rehash the chain of the old split bucket in place. -/
def split (db : DB) (h : Handle) : Res Unit × DB × Handle :=
  let newChainPtrOff := hash_off + PTR_SZ * db.buckets.length
  let db1 := { db with buckets := db.buckets ++ [0] }
  let oldS := h.s
  let oldChainPtrOff := PTR_SZ * oldS + hash_off
  let h1 := { h with
    nhash := h.nhash + 1,
    i := if 2 ^ h.i < h.nhash + 1 then h.i + 1 else h.i,
    s := if (h.s + 1) * 2 = h.nhash + 1 then 0 else h.s + 1,
    ptroff := oldChainPtrOff }
  match readPtr db1 oldChainPtrOff .idx with
  | .ok offset =>
    rehashLoop oldS (db1.slots.length + 1) db1 h1 .idx newChainPtrOff .idx offset
  | .err e => (.err e, db1, h1)
  | .crash => (.crash, db1, h1)

/-- `Insert`: `store`, then the growth policy.  The load factor is the
Go expression `float64(1.0*nrecords / int64(1*self.nhash))`: an *integer*
division whose result is compared with 0.8, so a split triggers exactly
when `nrecords + 1 ≥ nbuckets`.  On a split error the header is still
rewritten with the already-updated copies. -/
def insert (db : DB) (h : Handle) (key value : List Char) : Res Unit × DB × Handle :=
  match store db h key value .insert with
  | (.ok _, db1, h1) =>
    let nrecords := h1.nrecords + 1
    if h1.nhash = 0 then (.crash, db1, h1)
    else if 1 ≤ nrecords.tdiv (h1.nhash : Int) then
      match split db1 h1 with
      | (.ok _, db2, h2) =>
        let r := updateHeader db2 h2 1
        (.ok (), r.1, r.2)
      | (.err e, db2, h2) =>
        let r := updateHeader db2 h2 1
        (.err e, r.1, r.2)
      | (.crash, db2, h2) => (.crash, db2, h2)
    else
      let r := updateHeader db1 h1 1
      (.ok (), r.1, r.2)
  | (.err e, db1, h1) => (.err e, db1, h1)
  | (.crash, db1, h1) => (.crash, db1, h1)

/-- `Update` (no growth policy: only `Insert` splits). -/
def update (db : DB) (h : Handle) (key value : List Char) : Res Unit × DB × Handle :=
  store db h key value .update

/-- `Upsert` (no growth policy: only `Insert` splits). -/
def upsert (db : DB) (h : Handle) (key value : List Char) : Res Unit × DB × Handle :=
  store db h key value .upsert

end LinearHashIndex

namespace Facade

/-! ## The `Brickdb` facade (`pkg/brickdb/db.go`, revision with
`Open`/`getIndexType`) -/

/-- `index.IndexType`: `HashIndexType = 1`, `LinearHashIndexType = 2`. -/
inductive IndexType where
  | hash
  | linear
deriving DecidableEq

def IndexType.toInt : IndexType → Int
  | .hash => 1
  | .linear => 2

/-- What the file system says about `name + ".idx"` when `Open` probes
it: the `os.Stat` outcome, whether the path is a directory, and the
first three bytes of the file when it exists. -/
structure IdxProbe where
  statNotExist : Bool
  isDir : Bool
  first3 : List Char
deriving DecidableEq

/-- `getIndexType`: read the first three ASCII bytes of the `.idx` file
and map them to an index type. -/
def getIndexType (p : IdxProbe) : Res IndexType :=
  if p.first3.length ≠ 3 then .err .shortRead
  else
    match parseInt p.first3 with
    | none => .err .parseError
    | some v =>
      if v = IndexType.toInt .hash then .ok .hash
      else if v = IndexType.toInt .linear then .ok .linear
      else .err .ioError

/-- The index-type selection of `Brickdb.Open`, translated line by line:

```go
finfo, err := os.Stat(indexFileName)
exists := false
if os.IsNotExist(err) { exists = false }
if exists { exists = !finfo.IsDir() }
if exists { ... getIndexType ... } else { return self.create() }
```

`create()` opens with the caller-requested type. -/
def openIndexChoice (p : IdxProbe) (requested : IndexType) : Res IndexType :=
  let exists0 := false
  let exists1 := if p.statNotExist then false else exists0
  let exists2 := if exists1 then ¬ p.isDir else exists1
  if exists2 then getIndexType p else .ok requested

end Facade

namespace HashIndex

/-! ## Well-formedness of a static database -/

/-- Pure decoder for a chain record, mirroring the success conditions of
`readIdx` test by test: the fields `(key, datoff, datlen)` when the
record decodes cleanly, `none` when `readIdx` would return an error *or*
panic. -/
def decodeRec (rec : IdxRec) : Option (List Char × Int × Int) :=
  if rec.idxlen < IDXLEN_MIN ∨ IDXLEN_MAX < rec.idxlen then none
  else if rec.payload.length ≠ rec.idxlen then none
  else if ¬ testNewLine rec.payload then none
  else
    let parts := splitOnChar ':' rec.payload.dropLast
    if parts.length = 0 then none
    else if 3 < parts.length then none
    else
      match parts.get? 1 with
      | none => none
      | some p1 =>
        match parseInt p1 with
        | none => none
        | some doff =>
          if doff < 0 then none
          else
            match parts.get? 2 with
            | none => none
            | some p2 =>
              match parseInt p2 with
              | none => none
              | some dlen =>
                if dlen < 0 ∨ (DATLEN_MAX : Int) < dlen then none
                else some (parts.headD [], doff, dlen)

/-- The list of record offsets on the chain starting at `off`, following
`NEXT_PTR` fields; `none` when a pointer leaves the record area or the
walk does not finish within `fuel` steps (a chain with a cycle never
finishes, and an acyclic chain visits at most `db.slots.length` records,
so fuel `db.slots.length + 1` is always enough for a terminating walk). -/
def walkChain (db : DB) : Nat → Nat → Option (List Nat)
  | _, 0 => some []
  | 0, _ + 1 => none
  | fuel + 1, o + 1 =>
    match db.slots.lookup (o + 1) with
    | none => none
    | some rec => (walkChain db fuel rec.ptr).map ((o + 1) :: ·)

/-- One slot is well formed: its record decodes, its `NEXT_PTR` is
representable, it lies in the record area `[971, idxEnd)` of `.idx`, and
its data offset lies inside `.dat`. -/
def slotOKB (db : DB) (p : Nat × IdxRec) : Bool :=
  decide (p.2.ptr ≤ PTR_MAX) && decide (971 ≤ p.1) && decide (p.1 < db.idxEnd) &&
    (match decodeRec p.2 with
     | some x => decide (x.2.1 ≤ (db.dat.length : Int))
     | none => false)

/-- Well-formedness of a static database: 137 buckets, every bucket
chain and the free list walkable, every slot well formed, and both files
within the 7-digit representable size. -/
def invB (db : DB) : Bool :=
  (db.buckets.length == HASHTABLE_SIZE) &&
    db.buckets.all (fun b => (walkChain db (db.slots.length + 1) b).isSome) &&
    (walkChain db (db.slots.length + 1) db.free).isSome &&
    db.slots.all (fun p => slotOKB db p) &&
    decide (db.dat.length ≤ PTR_MAX) &&
    decide (971 ≤ db.idxEnd) && decide (db.idxEnd ≤ PTR_MAX)

/-- The key stored in the chain record at offset `o`, when it decodes. -/
def chainKey (db : DB) (o : Nat) : Option (List Char) :=
  match db.slots.lookup o with
  | some rec => (decodeRec rec).map (fun x => x.1)
  | none => none

/-- The bucket-pointer value for `key`'s hash bucket. -/
def bucketVal (db : DB) (key : List Char) : Nat := db.buckets.getD (dbHash key) 0

/-- The chain of `key`'s bucket. -/
def chainOf (db : DB) (key : List Char) : Option (List Nat) :=
  walkChain db (db.slots.length + 1) (bucketVal db key)

/-- `key` is absent: no record on its bucket chain stores it. -/
def keyAbsentB (db : DB) (key : List Char) : Bool :=
  match chainOf db key with
  | some L => L.all (fun o => chainKey db o != some key)
  | none => false

/-- `key` is present somewhere on its bucket chain. -/
def keyPresentB (db : DB) (key : List Char) : Bool :=
  match chainOf db key with
  | some L => L.any (fun o => chainKey db o == some key)
  | none => false

/-! ### Association-list lemmas -/

theorem lookup_setSlot_self (sl : List (Nat × IdxRec)) (off : Nat) (rec : IdxRec) :
    (setSlot sl off rec).lookup off = some rec := by
  induction sl with
  | nil => simp [setSlot, List.lookup]
  | cons p ps ih =>
    by_cases hp : p.1 = off
    · simp [setSlot, hp, List.lookup]
    · have hb : (off == p.1) = false := by simpa using Ne.symm hp
      simp [setSlot, hp, List.lookup, hb, ih]

theorem lookup_setSlot_ne (sl : List (Nat × IdxRec)) {off o : Nat} (rec : IdxRec)
    (hne : o ≠ off) : (setSlot sl off rec).lookup o = sl.lookup o := by
  induction sl with
  | nil =>
    have hb : (o == off) = false := by simpa using hne
    simp [setSlot, List.lookup, hb]
  | cons p ps ih =>
    by_cases hp : p.1 = off
    · subst hp
      have hb : (o == p.1) = false := by simpa using hne
      simp [setSlot, List.lookup, hb]
    · simp only [setSlot, if_neg hp, List.lookup]
      cases hb : (o == p.1) <;> simp [hb, ih]

theorem lookup_mem {sl : List (Nat × IdxRec)} {o : Nat} {rec : IdxRec}
    (h : sl.lookup o = some rec) : (o, rec) ∈ sl := by
  induction sl with
  | nil => simp [List.lookup] at h
  | cons p ps ih =>
    rw [List.lookup] at h
    cases hb : (o == p.1)
    · simp only [hb] at h
      exact List.mem_cons_of_mem _ (ih h)
    · simp only [hb] at h
      have ho : o = p.1 := by simpa using hb
      have h2 := Option.some_inj.mp h
      exact List.mem_cons.mpr (Or.inl (by cases p; simp_all))

/-! ### `readIdx` agrees with the pure decoder -/

theorem readIdx_coherent {db : DB} (h : Handle) {off : Nat} {rec : IdxRec}
    {k : List Char} {doff dlen : Int}
    (hl : db.slots.lookup off = some rec) (hd : decodeRec rec = some (k, doff, dlen)) :
    readIdx db h off = (.ok rec.ptr,
      { h with idxoff := off, ptrval := rec.ptr, idxlen := rec.idxlen,
               idxbuf := k, datoff := doff, datlen := dlen }) := by
  unfold decodeRec at hd
  split at hd
  · exact absurd hd (by simp)
  next h1 =>
  split at hd
  · exact absurd hd (by simp)
  next h2 =>
  split at hd
  · exact absurd hd (by simp)
  next h3 =>
  simp only [] at hd
  split at hd
  · exact absurd hd (by simp)
  next h4 =>
  split at hd
  · exact absurd hd (by simp)
  next h5 =>
  rcases hp1 : (splitOnChar ':' rec.payload.dropLast).get? 1 with _ | p1 <;> simp only [hp1] at hd
  · exact absurd hd (by simp)
  rcases hq1 : parseInt p1 with _ | doff0 <;> simp only [hq1] at hd
  · exact absurd hd (by simp)
  split at hd
  · exact absurd hd (by simp)
  next h6 =>
  rcases hp2 : (splitOnChar ':' rec.payload.dropLast).get? 2 with _ | p2 <;> simp only [hp2] at hd
  · exact absurd hd (by simp)
  rcases hq2 : parseInt p2 with _ | dlen0 <;> simp only [hq2] at hd
  · exact absurd hd (by simp)
  split at hd
  · exact absurd hd (by simp)
  next h7 =>
  rw [Option.some_inj] at hd
  obtain ⟨hk1, hk2, hk3⟩ : (splitOnChar ':' rec.payload.dropLast).headD [] = k ∧
      doff0 = doff ∧ dlen0 = dlen := by
    refine ⟨congrArg Prod.fst hd, ?_, ?_⟩
    · exact congrArg (fun x => x.2.1) hd
    · exact congrArg (fun x => x.2.2) hd
  subst hk1 hk2 hk3
  simp only [readIdx, hl, if_neg h1, if_neg h2, if_neg h3, if_neg h4, if_neg h5,
    hp1, hq1, if_neg h6, hp2, hq2, if_neg h7]

/-! ### The encoded record decodes back to its fields -/

theorem intChars_ofNonneg {i : Int} (hi : 0 ≤ i) : intChars i = natChars i.toNat := by
  unfold intChars
  rw [if_neg (by omega)]
  congr 1
  omega

theorem encodePayload_concat (key : List Char) {doff dlen : Int}
    (hdo : 0 ≤ doff) (hdl : 0 ≤ dlen) :
    encodePayload key doff dlen =
      (key ++ ':' :: (natChars doff.toNat ++ ':' :: natChars dlen.toNat)) ++ ['\n'] := by
  unfold encodePayload
  rw [intChars_ofNonneg hdo, intChars_ofNonneg hdl]
  simp

theorem encodePayload_length (key : List Char) {doff dlen : Int}
    (hdo : 0 ≤ doff) (hdl : 0 ≤ dlen) :
    (encodePayload key doff dlen).length =
      key.length + (natChars doff.toNat).length + (natChars dlen.toNat).length + 3 := by
  rw [encodePayload_concat key hdo hdl]
  simp
  omega

theorem encodePayload_length_le {key : List Char} {doff dlen : Int}
    (hk : key ≠ [])
    (hdo : 0 ≤ doff) (hdo2 : doff ≤ (PTR_MAX : Int))
    (hdl : 0 ≤ dlen) (hdl2 : dlen ≤ (DATLEN_MAX : Int))
    (hklen : key.length ≤ 1010) :
    IDXLEN_MIN ≤ (encodePayload key doff dlen).length ∧
      (encodePayload key doff dlen).length ≤ IDXLEN_MAX ∧
      key.length + 3 ≤ (encodePayload key doff dlen).length := by
  rw [encodePayload_length key hdo hdl]
  have h1 : (natChars doff.toNat).length ≤ 7 := by
    refine natChars_length_le ?_ (by norm_num)
    have hp : (PTR_MAX : Int) = 9999999 := by norm_num [PTR_MAX]
    have h10 : (10 : Nat) ^ 7 = 10000000 := by norm_num
    omega
  have h2 : (natChars dlen.toNat).length ≤ 4 := by
    refine natChars_length_le ?_ (by norm_num)
    have hp : (DATLEN_MAX : Int) = 1024 := by norm_num [DATLEN_MAX]
    have h10 : (10 : Nat) ^ 4 = 10000 := by norm_num
    omega
  have h3 := natChars_length_pos doff.toNat
  have h4 := natChars_length_pos dlen.toNat
  have h5 : 1 ≤ key.length := List.length_pos.mpr hk
  unfold IDXLEN_MIN IDXLEN_MAX
  omega

theorem decodeRec_encode {key : List Char} {doff dlen : Int} (ptr : Nat)
    (hk : key ≠ []) (hkc : ':' ∉ key)
    (hdo : 0 ≤ doff) (hdo2 : doff ≤ (PTR_MAX : Int))
    (hdl : 0 ≤ dlen) (hdl2 : dlen ≤ (DATLEN_MAX : Int))
    (hklen : key.length ≤ 1010) :
    decodeRec ⟨ptr, (encodePayload key doff dlen).length, encodePayload key doff dlen⟩ =
      some (key, doff, dlen) := by
  obtain ⟨hmin, hmax, -⟩ := encodePayload_length_le hk hdo hdo2 hdl hdl2 hklen
  have hsplit : splitOnChar ':' (encodePayload key doff dlen).dropLast =
      [key, natChars doff.toNat, natChars dlen.toNat] := by
    rw [encodePayload_concat key hdo hdl, List.dropLast_concat]
    exact splitOnChar_three hkc natChars_no_colon natChars_no_colon
  have hnl : testNewLine (encodePayload key doff dlen) = true := by
    rw [encodePayload_concat key hdo hdl]
    unfold testNewLine
    rw [List.getLast?_concat]
    simp
  have hpd : parseInt (natChars doff.toNat) = some doff := by
    rw [parseInt_natChars (by unfold PTR_MAX at hdo2; omega)]
    congr 1
    omega
  have hpl : parseInt (natChars dlen.toNat) = some dlen := by
    rw [parseInt_natChars (by unfold DATLEN_MAX at hdl2; omega)]
    congr 1
    omega
  unfold decodeRec
  rw [if_neg (by simp only []; omega)]
  rw [if_neg (by simp)]
  rw [if_neg (by simp [hnl])]
  simp only [hsplit, List.length_cons, List.length_nil, List.get?]
  rw [if_neg (by omega), if_neg (by omega)]
  simp only [hpd, hpl, List.headD]
  rw [if_neg (by omega), if_neg (by push_neg; exact ⟨hdl, hdl2⟩)]

/-! ### Chain-walk lemmas -/

theorem walkChain_zero (db : DB) (fuel : Nat) : walkChain db fuel 0 = some [] := by
  cases fuel <;> rfl

theorem walkChain_succ {db : DB} {fuel o : Nat} {L : List Nat}
    (h : walkChain db (fuel + 1) (o + 1) = some L) :
    ∃ rec L', db.slots.lookup (o + 1) = some rec ∧
      walkChain db fuel rec.ptr = some L' ∧ L = (o + 1) :: L' := by
  unfold walkChain at h
  rcases hl : db.slots.lookup (o + 1) with _ | rec <;> simp only [hl] at h
  · exact absurd h (by simp)
  · rcases hw : walkChain db fuel rec.ptr with _ | L' <;> simp only [hw] at h
    · exact absurd h (by simp)
    · exact ⟨rec, L', rfl, hw, by simpa using h.symm⟩

theorem walkChain_mem {db : DB} :
    ∀ {fuel off : Nat} {L : List Nat}, walkChain db fuel off = some L →
      ∀ o ∈ L, ∃ rec, db.slots.lookup o = some rec := by
  intro fuel
  induction fuel with
  | zero =>
    intro off L h o ho
    cases off with
    | zero => rw [walkChain_zero] at h; simp_all
    | succ o' => exact absurd h (by unfold walkChain; simp)
  | succ fuel ih =>
    intro off L h o ho
    cases off with
    | zero => rw [walkChain_zero] at h; simp_all
    | succ o' =>
      obtain ⟨rec, L', hl, hw, rfl⟩ := walkChain_succ h
      rcases List.mem_cons.mp ho with rfl | ho'
      · exact ⟨rec, hl⟩
      · exact ih hw o ho'

/-! ### Invariant extraction -/

theorem inv_parts {db : DB} (hinv : invB db = true) :
    db.buckets.length = HASHTABLE_SIZE ∧
    (∀ b ∈ db.buckets, (walkChain db (db.slots.length + 1) b).isSome = true) ∧
    (walkChain db (db.slots.length + 1) db.free).isSome = true ∧
    (∀ p ∈ db.slots, slotOKB db p = true) ∧
    db.dat.length ≤ PTR_MAX ∧ 971 ≤ db.idxEnd ∧ db.idxEnd ≤ PTR_MAX := by
  unfold invB at hinv
  simp only [Bool.and_eq_true, List.all_eq_true, decide_eq_true_eq, beq_iff_eq] at hinv
  tauto

theorem inv_slotOK {db : DB} (hinv : invB db = true) {o : Nat} {rec : IdxRec}
    (hl : db.slots.lookup o = some rec) :
    rec.ptr ≤ PTR_MAX ∧ 971 ≤ o ∧ o < db.idxEnd ∧
      ∃ x, decodeRec rec = some x ∧ x.2.1 ≤ (db.dat.length : Int) := by
  have hmem := lookup_mem hl
  have hok := (inv_parts hinv).2.2.2.1 _ hmem
  unfold slotOKB at hok
  simp only [Bool.and_eq_true, decide_eq_true_eq] at hok
  obtain ⟨⟨⟨h1, h2⟩, h3⟩, h4⟩ := hok
  refine ⟨h1, h2, h3, ?_⟩
  rcases hdc : decodeRec rec with _ | x <;> rw [hdc] at h4
  · exact absurd h4 (by simp)
  · exact ⟨x, rfl, by simpa using h4⟩

/-! ### `findAndLock` on a well-formed chain -/

theorem falLoop_zero (db : DB) (key : List Char) (fuel : Nat) (h : Handle) :
    falLoop db key fuel h 0 = (.ok false, h) := by
  cases fuel <;> rfl

theorem falLoop_not_found {db : DB} {key : List Char} :
    ∀ {fuel off : Nat} {L : List Nat} (h : Handle),
      walkChain db fuel off = some L →
      (∀ o ∈ L, ∃ rec x, db.slots.lookup o = some rec ∧ decodeRec rec = some x ∧
        x.1 ≠ key) →
      ∃ h', falLoop db key fuel h off = (.ok false, h') ∧ h'.chainoff = h.chainoff ∧
        (h'.ptrval = h.ptrval ∨
          ∃ o rec, db.slots.lookup o = some rec ∧ h'.ptrval = rec.ptr) := by
  intro fuel
  induction fuel with
  | zero =>
    intro off L h hw habs
    cases off with
    | zero => exact ⟨h, falLoop_zero _ _ _ _, rfl, Or.inl rfl⟩
    | succ o => exact absurd hw (by unfold walkChain; simp)
  | succ fuel ih =>
    intro off L h hw habs
    cases off with
    | zero => exact ⟨h, falLoop_zero _ _ _ _, rfl, Or.inl rfl⟩
    | succ o =>
      obtain ⟨rec, L', hl, hw', rfl⟩ := walkChain_succ hw
      obtain ⟨rec2, x, hl2, hdec, hne⟩ := habs (o + 1) (List.mem_cons_self _ _)
      rw [hl] at hl2
      injection hl2 with hl2
      subst hl2
      obtain ⟨k0, doff0, dlen0⟩ := x
      have hri := readIdx_coherent h hl hdec
      obtain ⟨h'', heq, hch, hptr⟩ :=
        ih ({ h with idxoff := o + 1, ptrval := rec.ptr, idxlen := rec.idxlen, idxbuf := k0, datoff := doff0, datlen := dlen0, ptroff := o + 1 }) hw' (fun o' ho' => habs o' (List.mem_cons_of_mem _ ho'))
      refine ⟨h'', ?_, by simpa using hch, ?_⟩
      · rw [falLoop, hri]
        simp only []
        rw [if_neg (by simpa using hne)]
        exact heq
      · rcases hptr with he | he
        · exact Or.inr ⟨o + 1, rec, hl, by simpa using he⟩
        · exact Or.inr he

theorem falLoop_found {db : DB} {key : List Char} :
    ∀ {L1 : List Nat} {fuel off o : Nat} {L2 : List Nat} (h : Handle),
      walkChain db fuel off = some (L1 ++ o :: L2) →
      (∀ o' ∈ L1, ∃ rec x, db.slots.lookup o' = some rec ∧ decodeRec rec = some x ∧
        x.1 ≠ key) →
      (∃ rec doff dlen, db.slots.lookup o = some rec ∧
        decodeRec rec = some (key, doff, dlen)) →
      (falLoop db key fuel h off).1 = .ok true := by
  intro L1
  induction L1 with
  | nil =>
    intro fuel off o L2 h hw hpre hfound
    cases off with
    | zero => rw [walkChain_zero] at hw; simp_all
    | succ o2 =>
      cases fuel with
      | zero => exact absurd hw (by unfold walkChain; simp)
      | succ fuel =>
        obtain ⟨rec0, L', hl0, hw', hLeq⟩ := walkChain_succ hw
        simp only [List.nil_append, List.cons.injEq] at hLeq
        obtain ⟨ho, hL'⟩ := hLeq
        subst ho
        obtain ⟨rec, doff, dlen, hl, hdec⟩ := hfound
        rw [hl0] at hl
        injection hl with hl
        subst hl
        have hri := readIdx_coherent h hl0 hdec
        rw [falLoop, hri]
        simp
  | cons a L1 ihl =>
    intro fuel off o L2 h hw hpre hfound
    cases off with
    | zero => rw [walkChain_zero] at hw; simp_all
    | succ o2 =>
      cases fuel with
      | zero => exact absurd hw (by unfold walkChain; simp)
      | succ fuel =>
        obtain ⟨rec0, L', hl0, hw', hLeq⟩ := walkChain_succ hw
        simp only [List.cons_append, List.cons.injEq] at hLeq
        obtain ⟨ha, hL'⟩ := hLeq
        subst ha
        obtain ⟨rec2, x, hl2, hdec, hne⟩ := hpre (o2 + 1) (List.mem_cons_self _ _)
        rw [hl0] at hl2
        injection hl2 with hl2
        subst hl2
        obtain ⟨k0, doff0, dlen0⟩ := x
        have hri := readIdx_coherent h hl0 hdec
        rw [falLoop, hri]
        simp only []
        rw [if_neg (by simpa using hne)]
        exact ihl _ (hL' ▸ hw') (fun o' ho' => hpre o' (List.mem_cons_of_mem _ ho')) hfound

theorem dbHash_lt (key : List Char) : dbHash key < HASHTABLE_SIZE :=
  Nat.mod_lt _ (by norm_num [HASHTABLE_SIZE])

theorem bucketIndex?_hashoff {b : Nat} (hb : b < HASHTABLE_SIZE) :
    bucketIndex? (HASH_OFF + PTR_SZ * b) = some b := by
  unfold bucketIndex?
  rw [if_pos]
  · congr 1
    unfold HASH_OFF FREE_OFF PTR_SZ
    omega
  · simp only [Bool.and_eq_true, decide_eq_true_eq, beq_iff_eq]
    unfold HASH_OFF FREE_OFF PTR_SZ HASHTABLE_SIZE at *
    omega

theorem readPtr_bucket (db : DB) (key : List Char) :
    readPtr db (HASH_OFF + PTR_SZ * dbHash key) = .ok (bucketVal db key) := by
  unfold readPtr
  rw [if_neg (by unfold HASH_OFF FREE_OFF PTR_SZ; omega)]
  rw [bucketIndex?_hashoff (dbHash_lt key)]
  rfl


theorem findAndLock_not_found {db : DB} {key : List Char} {L : List Nat} (h : Handle)
    (hw : chainOf db key = some L)
    (habs : ∀ o ∈ L, ∃ rec x, db.slots.lookup o = some rec ∧ decodeRec rec = some x ∧
      x.1 ≠ key) :
    ∃ h', findAndLock db h key = (.ok false, h') ∧
      h'.chainoff = HASH_OFF + PTR_SZ * dbHash key ∧
      (h'.ptrval = h.ptrval ∨
        ∃ o rec, db.slots.lookup o = some rec ∧ h'.ptrval = rec.ptr) := by
  obtain ⟨h', heq, hch, hptr⟩ :=
    falLoop_not_found ({ h with chainoff := HASH_OFF + PTR_SZ * dbHash key, ptroff := HASH_OFF + PTR_SZ * dbHash key }) hw habs
  refine ⟨h', ?_, by simpa using hch, by simpa using hptr⟩
  unfold findAndLock
  simp only [readPtr_bucket]
  exact heq

theorem findAndLock_found {db : DB} {key : List Char} {L1 : List Nat} {o : Nat}
    {L2 : List Nat} (h : Handle)
    (hw : chainOf db key = some (L1 ++ o :: L2))
    (hpre : ∀ o' ∈ L1, ∃ rec x, db.slots.lookup o' = some rec ∧ decodeRec rec = some x ∧
      x.1 ≠ key)
    (hfound : ∃ rec doff dlen, db.slots.lookup o = some rec ∧
      decodeRec rec = some (key, doff, dlen)) :
    (findAndLock db h key).1 = .ok true := by
  unfold findAndLock
  simp only [readPtr_bucket]
  exact falLoop_found _ hw hpre hfound

/-! ### Bounds carried by a decoded record -/

theorem decodeRec_bounds {rec : IdxRec} {k : List Char} {doff dlen : Int}
    (hd : decodeRec rec = some (k, doff, dlen)) :
    0 ≤ doff ∧ 0 ≤ dlen ∧ dlen ≤ (DATLEN_MAX : Int) := by
  unfold decodeRec at hd
  split at hd
  · exact absurd hd (by simp)
  split at hd
  · exact absurd hd (by simp)
  split at hd
  · exact absurd hd (by simp)
  simp only [] at hd
  split at hd
  · exact absurd hd (by simp)
  split at hd
  · exact absurd hd (by simp)
  rcases hp1 : (splitOnChar ':' rec.payload.dropLast).get? 1 with _ | p1 <;>
    simp only [hp1] at hd
  · exact absurd hd (by simp)
  rcases hq1 : parseInt p1 with _ | doff0 <;> simp only [hq1] at hd
  · exact absurd hd (by simp)
  split at hd
  · exact absurd hd (by simp)
  next h6 =>
  rcases hp2 : (splitOnChar ':' rec.payload.dropLast).get? 2 with _ | p2 <;>
    simp only [hp2] at hd
  · exact absurd hd (by simp)
  rcases hq2 : parseInt p2 with _ | dlen0 <;> simp only [hq2] at hd
  · exact absurd hd (by simp)
  split at hd
  · exact absurd hd (by simp)
  next h7 =>
  rw [Option.some_inj] at hd
  have h2 : doff0 = doff := congrArg (fun x => x.2.1) hd
  have h3 : dlen0 = dlen := congrArg (fun x => x.2.2) hd
  push_neg at h6 h7
  subst h2 h3
  exact ⟨h6, h7.1, h7.2⟩

/-! ### List helpers for the roundtrip proofs -/

theorem getD_set_self {l : List Nat} {b : Nat} (x : Nat) (hb : b < l.length) :
    (l.set b x).getD b 0 = x := by
  induction l generalizing b with
  | nil => simp at hb
  | cons a l ih =>
    cases b with
    | zero => rfl
    | succ b => simpa [List.set, List.getD] using ih (by simpa using hb)

/-- The portion of the data file written by `writeData`'s in-place branch
reads back as the data plus its newline: the bytes before offset `o`
(existing prefix plus zero padding) always measure exactly `o`. -/
theorem writeData_readback (dat data rest : List Char) (o : Nat) :
    ((dat.take o ++ (List.replicate (o - dat.length) (Char.ofNat 0) ++
        (data ++ (['\n'] ++ rest)))).drop o).take (data.length + 1) = data ++ ['\n'] := by
  rw [← List.append_assoc]
  have h1 : (dat.take o ++ List.replicate (o - dat.length) (Char.ofNat 0)).length = o := by
    simp [List.length_take]
    omega
  rw [List.drop_left' h1, ← List.append_assoc]
  exact List.take_left' (by simp)

theorem exists_first_of_any {p : Nat → Bool} :
    ∀ {L : List Nat}, L.any p = true →
      ∃ L1 o L2, L = L1 ++ o :: L2 ∧ p o = true ∧ ∀ o' ∈ L1, p o' = false := by
  intro L
  induction L with
  | nil => simp
  | cons a L ih =>
    intro hany
    by_cases ha : p a = true
    · exact ⟨[], a, L, rfl, ha, by simp⟩
    · have ha' : p a = false := by simpa using ha
      have h' : L.any p = true := by simpa [ha'] using hany
      obtain ⟨L1, o, L2, rfl, hpo, hpre⟩ := ih h'
      refine ⟨a :: L1, o, L2, rfl, hpo, ?_⟩
      intro o' ho'
      rcases List.mem_cons.mp ho' with rfl | ho''
      · exact ha'
      · exact hpre o' ho''

/-! ### Decomposing `keyAbsentB` / `keyPresentB` over a well-formed chain -/

theorem keyAbsent_chain {db : DB} {key : List Char} (hinv : invB db = true)
    (habs : keyAbsentB db key = true) :
    ∃ L, chainOf db key = some L ∧
      ∀ o ∈ L, ∃ rec x, db.slots.lookup o = some rec ∧ decodeRec rec = some x ∧
        x.1 ≠ key := by
  unfold keyAbsentB at habs
  rcases hc : chainOf db key with _ | L <;> rw [hc] at habs
  · exact absurd habs (by simp)
  refine ⟨L, rfl, ?_⟩
  intro o ho
  have hc' : walkChain db (db.slots.length + 1) (bucketVal db key) = some L := hc
  obtain ⟨rec, hl⟩ := walkChain_mem hc' o ho
  obtain ⟨-, -, -, x, hdec, -⟩ := inv_slotOK hinv hl
  refine ⟨rec, x, hl, hdec, ?_⟩
  have hk := (List.all_eq_true.mp habs) o ho
  simp only [chainKey, hl, hdec, Option.map_some', bne_iff_ne, ne_eq,
    Option.some.injEq] at hk
  exact hk

theorem keyPresent_first {db : DB} {key : List Char} (hinv : invB db = true)
    (hpres : keyPresentB db key = true) :
    ∃ L1 o L2, chainOf db key = some (L1 ++ o :: L2) ∧
      (∀ o' ∈ L1, ∃ rec x, db.slots.lookup o' = some rec ∧ decodeRec rec = some x ∧
        x.1 ≠ key) ∧
      ∃ rec doff dlen, db.slots.lookup o = some rec ∧
        decodeRec rec = some (key, doff, dlen) := by
  unfold keyPresentB at hpres
  rcases hc : chainOf db key with _ | L <;> rw [hc] at hpres
  · exact absurd hpres (by simp)
  obtain ⟨L1, o, L2, rfl, hpo, hpre⟩ := exists_first_of_any hpres
  have hc' : walkChain db (db.slots.length + 1) (bucketVal db key) =
      some (L1 ++ o :: L2) := hc
  refine ⟨L1, o, L2, rfl, ?_, ?_⟩
  · intro o' ho'
    obtain ⟨rec, hl⟩ := walkChain_mem hc' o' (List.mem_append_left _ ho')
    obtain ⟨-, -, -, x, hdec, -⟩ := inv_slotOK hinv hl
    refine ⟨rec, x, hl, hdec, ?_⟩
    have hk := hpre o' ho'
    simp only [chainKey, hl, hdec, Option.map_some', beq_iff_eq,
      Option.some.injEq] at hk
    simpa using hk
  · obtain ⟨rec, hl⟩ := walkChain_mem hc' o
      (List.mem_append_right _ (List.mem_cons_self _ _))
    obtain ⟨-, -, -, x, hdec, -⟩ := inv_slotOK hinv hl
    rcases x with ⟨x1, x2, x3⟩
    simp only [chainKey, hl, hdec, Option.map_some', beq_iff_eq,
      Option.some.injEq] at hpo
    subst hpo
    exact ⟨rec, x2, x3, hl, hdec⟩

/-- `findAndLock` on an absent key: not found, with the chain offset set
to the key's bucket and a still-representable scratch `ptrval`. -/
theorem findAndLock_absent {db : DB} {key : List Char} (h : Handle)
    (hinv : invB db = true) (habs : keyAbsentB db key = true)
    (hp : h.ptrval ≤ PTR_MAX) :
    ∃ h1, findAndLock db h key = (.ok false, h1) ∧
      h1.chainoff = HASH_OFF + PTR_SZ * dbHash key ∧ h1.ptrval ≤ PTR_MAX := by
  obtain ⟨L, hc, habs'⟩ := keyAbsent_chain hinv habs
  obtain ⟨h1, heq, hch, hptr⟩ := findAndLock_not_found h hc habs'
  refine ⟨h1, heq, hch, ?_⟩
  rcases hptr with he | ⟨o, rec, hl, he⟩
  · rw [he]; exact hp
  · rw [he]; exact (inv_slotOK hinv hl).1

/-- One step of `falLoop` at a record that holds the key: found at once. -/
theorem falLoop_head {db : DB} {key : List Char} {m : Nat} {rec : IdxRec}
    {doff dlen : Int} (h : Handle) (fuel : Nat)
    (hl : db.slots.lookup (m + 1) = some rec)
    (hdec : decodeRec rec = some (key, doff, dlen)) :
    falLoop db key (fuel + 1) h (m + 1) =
      (.ok true, ({ h with idxoff := m + 1, ptrval := rec.ptr, idxlen := rec.idxlen, idxbuf := key, datoff := doff, datlen := dlen } : Handle)) := by
  rw [falLoop, readIdx_coherent h hl hdec]
  show (if key = key then _ else _) = _
  rw [if_pos rfl]

/-- `findAndLock` when the key's bucket points straight at a record
holding the key. -/
theorem findAndLock_head {db : DB} {key : List Char} {m : Nat} {rec : IdxRec}
    {doff dlen : Int} (h : Handle)
    (hb : bucketVal db key = m + 1)
    (hl : db.slots.lookup (m + 1) = some rec)
    (hdec : decodeRec rec = some (key, doff, dlen)) :
    findAndLock db h key =
      (.ok true, ({ h with chainoff := HASH_OFF + PTR_SZ * dbHash key, ptroff := HASH_OFF + PTR_SZ * dbHash key, idxoff := m + 1, ptrval := rec.ptr, idxlen := rec.idxlen, idxbuf := key, datoff := doff, datlen := dlen } : Handle)) := by
  unfold findAndLock
  simp only [readPtr_bucket, hb]
  exact falLoop_head _ _ hl hdec

/-- `readData` on a handle whose data fields frame `v ++ "\n"` in `.dat`. -/
theorem readData_spec {db : DB} (h : Handle) {v : List Char}
    (hdo : 0 ≤ h.datoff) (hdl : 0 ≤ h.datlen)
    (hdat : (db.dat.drop h.datoff.toNat).take h.datlen.toNat = v ++ ['\n'])
    (hvlen : v.length + 1 = h.datlen.toNat) :
    (readData db h).1 = .ok v := by
  unfold readData
  rw [if_neg (by omega), if_neg (by omega)]
  simp only [hdat]
  rw [if_neg (by simp; omega)]
  rw [if_neg (by simp [testNewLine, List.getLast?_concat])]
  simp [List.dropLast_concat]

/-- `Fetch` of a key whose bucket points straight at a record holding it:
returns the `dlen` bytes at `doff`, without the trailing newline. -/
theorem fetch_head (h2 : Handle) {db : DB} {key v : List Char} (o : Nat) {rec : IdxRec}
    {doff dlen : Int}
    (hb : bucketVal db key = o) (ho : o ≠ 0)
    (hl : db.slots.lookup o = some rec)
    (hdec : decodeRec rec = some (key, doff, dlen))
    (hdo : 0 ≤ doff) (hdl : 0 ≤ dlen)
    (hdat : (db.dat.drop doff.toNat).take dlen.toNat = v ++ ['\n'])
    (hvlen : v.length + 1 = dlen.toNat) :
    (fetch db h2 key).1 = .ok v := by
  obtain ⟨m, rfl⟩ : ∃ m, o = m + 1 := ⟨o - 1, by omega⟩
  unfold fetch
  rw [findAndLock_head h2 hb hl hdec]
  simp only []
  rw [if_neg (by decide)]
  rcases hrd : readData db ({ h2 with chainoff := HASH_OFF + PTR_SZ * dbHash key, ptroff := HASH_OFF + PTR_SZ * dbHash key, idxoff := m + 1, ptrval := rec.ptr, idxlen := rec.idxlen, idxbuf := key, datoff := doff, datlen := dlen } : Handle) with ⟨r, h3⟩
  have hspec := readData_spec ({ h2 with chainoff := HASH_OFF + PTR_SZ * dbHash key, ptroff := HASH_OFF + PTR_SZ * dbHash key, idxoff := m + 1, ptrval := rec.ptr, idxlen := rec.idxlen, idxbuf := key, datoff := doff, datlen := dlen } : Handle) hdo hdl hdat hvlen
  rw [hrd] at hspec
  simp only [] at hspec
  rw [hspec]

/-! ### Exact output of the write primitives on their success paths -/

theorem take_len_concat (v : List Char) :
    (v ++ ['\n']).take (v.length + 1) = v ++ ['\n'] := by
  have hlen : (v ++ ['\n']).length = v.length + 1 := by simp
  rw [← hlen, List.take_length]

theorem writeData_start_ok (db : DB) (h : Handle) (data : List Char) (off : Int)
    (hoff : 0 ≤ off) :
    writeData db h data off .seekStart =
      (.ok (), ({ db with dat := db.dat.take off.toNat ++ List.replicate (off.toNat - db.dat.length) (Char.ofNat 0) ++ data ++ ['\n'] ++ db.dat.drop (off.toNat + data.length + 1) } : DB), ({ h with datoff := off, datlen := (data.length : Int) + 1 } : Handle)) := by
  unfold writeData
  simp only []
  rw [if_neg (not_lt.mpr hoff)]

theorem writeIdx_end_ok (db : DB) (h : Handle) (key : List Char) (ptrval : Nat)
    (hp : h.ptrval ≤ PTR_MAX)
    (h6 : ¬((encodePayload key h.datoff h.datlen).length < IDXLEN_MIN ∨
      IDXLEN_MAX < (encodePayload key h.datoff h.datlen).length)) :
    writeIdx db h key 0 .seekEnd ptrval =
      (.ok (), ({ db with slots := setSlot db.slots db.idxEnd ⟨ptrval, (encodePayload key h.datoff h.datlen).length, encodePayload key h.datoff h.datlen⟩, idxEnd := db.idxEnd + PTR_SZ + IDXLEN_SZ + (encodePayload key h.datoff h.datlen).length } : DB), ({ h with idxbuf := encodePayload key h.datoff h.datlen, idxoff := db.idxEnd } : Handle)) := by
  unfold writeIdx
  rw [if_neg (not_lt.mpr hp)]
  simp only []
  rw [if_neg h6]

theorem writeIdx_start_ok (db : DB) (h : Handle) (key : List Char) (off : Nat)
    (ptrval : Nat)
    (hp : h.ptrval ≤ PTR_MAX)
    (h6 : ¬((encodePayload key h.datoff h.datlen).length < IDXLEN_MIN ∨
      IDXLEN_MAX < (encodePayload key h.datoff h.datlen).length)) :
    writeIdx db h key off .seekStart ptrval =
      (.ok (), ({ db with slots := setSlot db.slots off ⟨ptrval, (encodePayload key h.datoff h.datlen).length, encodePayload key h.datoff h.datlen⟩ } : DB), ({ h with idxbuf := encodePayload key h.datoff h.datlen, idxoff := off } : Handle)) := by
  unfold writeIdx
  rw [if_neg (not_lt.mpr hp)]
  simp only []
  rw [if_neg h6]

theorem writePtr_bucket_ok (db : DB) {b : Nat} (hb : b < HASHTABLE_SIZE) (ptrval : Nat)
    (hpv : ptrval ≤ PTR_MAX) :
    writePtr db (HASH_OFF + PTR_SZ * b) ptrval =
      (.ok (), { db with buckets := db.buckets.set b ptrval }) := by
  unfold writePtr
  rw [if_neg (not_lt.mpr hpv), if_neg (by unfold HASH_OFF FREE_OFF PTR_SZ; omega),
    bucketIndex?_hashoff hb]

theorem writePtr_dat_idxEnd (db : DB) (off ptrval : Nat) :
    (writePtr db off ptrval).2.dat = db.dat ∧
      (writePtr db off ptrval).2.idxEnd = db.idxEnd := by
  unfold writePtr
  repeat' split
  all_goals exact ⟨rfl, rfl⟩

theorem writePtr_buckets_of (db : DB) {off : Nat} (ptrval : Nat)
    (hoff : off = FREE_OFF ∨ 971 ≤ off) :
    (writePtr db off ptrval).2.buckets = db.buckets := by
  unfold writePtr
  split
  · rfl
  rcases hoff with rfl | h971
  · rw [if_pos rfl]
  · have hbi : bucketIndex? off = none := by
      unfold bucketIndex?
      rw [if_neg]
      simp only [Bool.and_eq_true, decide_eq_true_eq, beq_iff_eq, not_and]
      unfold HASH_OFF FREE_OFF PTR_SZ HASHTABLE_SIZE
      omega
    rw [if_neg (by unfold FREE_OFF; omega), hbi]
    simp only []
    split <;> rfl

/-! ### `findFree` on a well-formed database -/

theorem ffLoop_spec {db : DB} (hinv : invB db = true) (keylen datlen : Int) :
    ∀ {fuel off : Nat} {L : List Nat} (h : Handle) (saveOffset : Nat),
      walkChain db fuel off = some L → h.ptrval ≤ PTR_MAX →
      saveOffset = FREE_OFF ∨ 971 ≤ saveOffset →
      (∃ h2 save2, ffLoop db keylen datlen fuel h saveOffset off =
            (.ok (false, save2), h2) ∧
          h2.chainoff = h.chainoff ∧ h2.ptrval ≤ PTR_MAX) ∨
      (∃ h2 save2 o rec k0 doff dlen,
          ffLoop db keylen datlen fuel h saveOffset off = (.ok (true, save2), h2) ∧
          h2.chainoff = h.chainoff ∧ (save2 = FREE_OFF ∨ 971 ≤ save2) ∧
          db.slots.lookup o = some rec ∧ decodeRec rec = some (k0, doff, dlen) ∧
          h2.idxoff = o ∧ h2.datoff = doff ∧ h2.datlen = datlen ∧
          h2.ptrval = rec.ptr) := by
  intro fuel
  induction fuel with
  | zero =>
    intro off L h saveOffset hw hp hsv
    cases off with
    | zero => exact Or.inl ⟨h, saveOffset, rfl, rfl, hp⟩
    | succ o => exact absurd hw (by unfold walkChain; simp)
  | succ fuel ih =>
    intro off L h saveOffset hw hp hsv
    cases off with
    | zero => exact Or.inl ⟨h, saveOffset, rfl, rfl, hp⟩
    | succ o =>
      obtain ⟨rec, L', hl, hw', rfl⟩ := walkChain_succ hw
      obtain ⟨hptr, ho971, -, x, hdec, -⟩ := inv_slotOK hinv hl
      rcases x with ⟨k0, doff0, dlen0⟩
      have hri := readIdx_coherent h hl hdec
      by_cases hcond : ((k0.length : Int) = keylen ∧ dlen0 = datlen)
      · refine Or.inr ⟨({ h with idxoff := o + 1, ptrval := rec.ptr, idxlen := rec.idxlen, idxbuf := k0, datoff := doff0, datlen := dlen0 } : Handle), saveOffset, o + 1, rec, k0, doff0, dlen0, ?_, rfl, hsv, hl, hdec, rfl, rfl, hcond.2, rfl⟩
        rw [ffLoop, hri]
        show (if ((k0.length : Int) = keylen ∧ dlen0 = datlen) then _ else _) = _
        rw [if_pos hcond]
      · rcases ih ({ h with idxoff := o + 1, ptrval := rec.ptr, idxlen := rec.idxlen, idxbuf := k0, datoff := doff0, datlen := dlen0 } : Handle) (o + 1) hw' hptr (Or.inr ho971) with
          ⟨h2, save2, heq, hch, hp2⟩ |
          ⟨h2, save2, o2, rec2, k2, doff2, dlen2, heq, hch, hsv2, hl2, hdec2, hio, hdo2, hdl2, hpv⟩
        · refine Or.inl ⟨h2, save2, ?_, hch, hp2⟩
          rw [ffLoop, hri]
          show (if ((k0.length : Int) = keylen ∧ dlen0 = datlen) then _ else _) = _
          rw [if_neg hcond]
          exact heq
        · refine Or.inr ⟨h2, save2, o2, rec2, k2, doff2, dlen2, ?_, hch, hsv2, hl2,
            hdec2, hio, hdo2, hdl2, hpv⟩
          rw [ffLoop, hri]
          show (if ((k0.length : Int) = keylen ∧ dlen0 = datlen) then _ else _) = _
          rw [if_neg hcond]
          exact heq

theorem findFree_spec {db : DB} (h : Handle) (keylen datlen : Int)
    (hinv : invB db = true) (hp : h.ptrval ≤ PTR_MAX) :
    (∃ h2, findFree db h keylen datlen = (.ok false, db, h2) ∧
        h2.chainoff = h.chainoff ∧ h2.ptrval ≤ PTR_MAX) ∨
    (∃ h2 dbF o doff,
        findFree db h keylen datlen = (.ok true, dbF, h2) ∧
        h2.chainoff = h.chainoff ∧ h2.ptrval ≤ PTR_MAX ∧
        h2.idxoff = o ∧ 971 ≤ o ∧ o ≤ PTR_MAX ∧
        h2.datoff = doff ∧ 0 ≤ doff ∧ doff ≤ (PTR_MAX : Int) ∧
        h2.datlen = datlen ∧
        dbF.dat = db.dat ∧ dbF.buckets = db.buckets ∧ dbF.idxEnd = db.idxEnd) := by
  obtain ⟨Lf, hLf⟩ := Option.isSome_iff_exists.mp ((inv_parts hinv).2.2.1)
  have hrp : readPtr db FREE_OFF = .ok db.free := by
    unfold readPtr
    rw [if_pos rfl]
  unfold findFree
  rw [hrp]
  simp only []
  rcases ffLoop_spec hinv keylen datlen h FREE_OFF hLf hp (Or.inl rfl) with
    ⟨h2, save2, heq, hch, hp2⟩ |
    ⟨h2, save2, o, rec, k0, doff, dlen, heq, hch, hsv, hl, hdec, hio, hdo, hdl, hpv⟩
  · rw [heq]
    exact Or.inl ⟨h2, rfl, hch, hp2⟩
  · rw [heq]
    obtain ⟨hrptr, ho971, hoidx, x, hdx, hxle⟩ := inv_slotOK hinv hl
    rw [hdec] at hdx
    injection hdx with hdx
    subst hdx
    obtain ⟨hdo0, hdl0, -⟩ := decodeRec_bounds hdec
    obtain ⟨-, -, -, -, hdatmax, -, hiemax⟩ := inv_parts hinv
    refine Or.inr ⟨h2, (writePtr db save2 h2.ptrval).2, o, doff, rfl, hch, ?_, hio,
      ho971, by omega, hdo, hdo0, ?_, hdl, ?_, ?_, ?_⟩
    · rw [hpv]; exact hrptr
    · have hc : (db.dat.length : Int) ≤ (PTR_MAX : Int) := by exact_mod_cast hdatmax
      simp only [] at hxle
      omega
    · exact (writePtr_dat_idxEnd db save2 h2.ptrval).1
    · exact writePtr_buckets_of db h2.ptrval hsv
    · exact (writePtr_dat_idxEnd db save2 h2.ptrval).2

/-- `store` with op `Insert` on a present key (and a value surviving the
initial length check): fails with the "already exists" error and leaves
the database untouched. -/
theorem store_insert_present {db : DB} {key : List Char} (h : Handle) (v : List Char)
    (hinv : invB db = true) (hpres : keyPresentB db key = true)
    (hlo : (DATLEN_MIN : Int) ≤ v.length) (hhi : (v.length : Int) ≤ (DATLEN_MAX : Int)) :
    (store db h key v .insert).1 = .err .keyExists ∧
      (store db h key v .insert).2.1 = db := by
  obtain ⟨L1, o, L2, hw, hpre, hfound⟩ := keyPresent_first hinv hpres
  have hfal := findAndLock_found h hw hpre hfound
  unfold store
  simp only []
  rw [if_neg (by rw [not_or]; exact ⟨not_lt.mpr hlo, not_lt.mpr hhi⟩)]
  rcases hfa : findAndLock db h key with ⟨r, h1⟩
  rw [hfa] at hfal
  simp only [] at hfal
  subst hfal
  exact ⟨rfl, rfl⟩

/-- C1's content on the success range: `Insert` of an absent key with a
value whose length passes both `store`'s initial check and the decoder's
stored-length bound (`2 ≤ |v| ≤ 1023`) succeeds, and `Fetch` of the key
on the resulting database (with any handle) returns exactly the value —
on the append path and on the free-slot reuse path alike. -/
theorem store_insert_absent {db : DB} {key v : List Char} (h h2f : Handle)
    (hinv : invB db = true) (habs : keyAbsentB db key = true)
    (hp : h.ptrval ≤ PTR_MAX)
    (hk : key ≠ []) (hkc : ':' ∉ key) (hklen : key.length ≤ 1010)
    (hlo : 2 ≤ v.length) (hhi : v.length ≤ 1023) :
    (store db h key v .insert).1 = .ok () ∧
      (fetch (store db h key v .insert).2.1 h2f key).1 = .ok v := by
  obtain ⟨hblen, -, -, -, hdatmax, hidxlo, hidxhi⟩ := inv_parts hinv
  obtain ⟨h1, hfal, hch, hp1⟩ := findAndLock_absent h hinv habs hp
  have henc : ∀ doff dlen : Int, 0 ≤ doff → doff ≤ (PTR_MAX : Int) →
      0 ≤ dlen → dlen ≤ (DATLEN_MAX : Int) →
      ¬((encodePayload key doff dlen).length < IDXLEN_MIN ∨
        IDXLEN_MAX < (encodePayload key doff dlen).length) := by
    intro doff dlen hx1 hx2 hx3 hx4
    obtain ⟨ha, hb, -⟩ := encodePayload_length_le hk hx1 hx2 hx3 hx4 hklen
    omega
  have hdatmaxI : (db.dat.length : Int) ≤ (PTR_MAX : Int) := by exact_mod_cast hdatmax
  unfold store
  simp only []
  rw [if_neg (by unfold DATLEN_MIN DATLEN_MAX; push_neg; constructor <;> omega)]
  rw [hfal]
  simp only []
  rw [if_pos (by decide), if_neg (by decide), hch, readPtr_bucket]
  simp only []
  rcases findFree_spec h1 (key.length : Int) (v.length : Int) hinv hp1 with
    ⟨hF, heqF, hchF, hpF⟩ |
    ⟨hF, dbF, o, doff, heqF, hchF, hpF, hio, ho971, homax, hdo, hdo0, hdomax, hdl,
      hdatF, hbkF, hieF⟩
  · -- append path
    have h6a : ¬((encodePayload key (db.dat.length : Int) ((v.length : Int) + 1)).length < IDXLEN_MIN ∨ IDXLEN_MAX < (encodePayload key (db.dat.length : Int) ((v.length : Int) + 1)).length) :=
      henc _ _ (Int.natCast_nonneg _) hdatmaxI (by omega) (by unfold DATLEN_MAX; omega)
    rw [heqF]
    simp only []
    rw [if_pos (by decide)]
    have hwd : writeData db hF v 0 .seekEnd =
        (.ok (), ({ db with dat := db.dat ++ v ++ ['\n'] } : DB), ({ hF with datoff := (db.dat.length : Int), datlen := (v.length : Int) + 1 } : Handle)) := rfl
    rw [hwd]
    simp only []
    rw [writeIdx_end_ok ({ db with dat := db.dat ++ v ++ ['\n'] } : DB) ({ hF with datoff := (db.dat.length : Int), datlen := (v.length : Int) + 1 } : Handle) key (bucketVal db key) hpF h6a]
    simp only []
    rw [hchF, hch]
    rw [writePtr_bucket_ok _ (dbHash_lt key) db.idxEnd hidxhi]
    simp only []
    refine ⟨by trivial, ?_⟩
    apply fetch_head h2f db.idxEnd
    case hl => exact lookup_setSlot_self _ _ _
    case hdec =>
      exact decodeRec_encode (bucketVal db key) hk hkc (Int.natCast_nonneg _)
        hdatmaxI (by omega) (by unfold DATLEN_MAX; omega) hklen
    case hb =>
      show (db.buckets.set (dbHash key) db.idxEnd).getD (dbHash key) 0 = db.idxEnd
      exact getD_set_self db.idxEnd (by rw [hblen]; exact dbHash_lt key)
    case ho => omega
    case hdo => exact Int.natCast_nonneg _
    case hdl => omega
    case hdat =>
      show ((db.dat ++ v ++ ['\n']).drop ((db.dat.length : Int)).toNat).take
        (((v.length : Int) + 1)).toNat = v ++ ['\n']
      have ht : (((v.length : Int) + 1)).toNat = v.length + 1 := by omega
      have hn : ((db.dat.length : Int)).toNat = db.dat.length := by omega
      rw [ht, hn, List.append_assoc, List.drop_left, take_len_concat]
    case hvlen => omega
  · -- free-slot reuse path
    have h6b : ¬((encodePayload key doff ((v.length : Int) + 1)).length < IDXLEN_MIN ∨ IDXLEN_MAX < (encodePayload key doff ((v.length : Int) + 1)).length) :=
      henc _ _ hdo0 hdomax (by omega) (by unfold DATLEN_MAX; omega)
    rw [heqF]
    simp only []
    rw [if_neg (by decide), hdo]
    rw [writeData_start_ok dbF hF v doff hdo0]
    simp only []
    rw [hio]
    rw [writeIdx_start_ok ({ dbF with dat := dbF.dat.take doff.toNat ++ List.replicate (doff.toNat - dbF.dat.length) (Char.ofNat 0) ++ v ++ ['\n'] ++ dbF.dat.drop (doff.toNat + v.length + 1) } : DB) ({ hF with idxoff := o, datoff := doff, datlen := (v.length : Int) + 1 } : Handle) key o (bucketVal db key) hpF h6b]
    simp only []
    rw [hchF, hch]
    rw [writePtr_bucket_ok _ (dbHash_lt key) o homax]
    simp only []
    refine ⟨by trivial, ?_⟩
    apply fetch_head h2f o
    case hl => exact lookup_setSlot_self _ _ _
    case hdec =>
      exact decodeRec_encode (bucketVal db key) hk hkc hdo0 hdomax (by omega)
        (by unfold DATLEN_MAX; omega) hklen
    case hb =>
      show (dbF.buckets.set (dbHash key) o).getD (dbHash key) 0 = o
      exact getD_set_self o (by rw [hbkF, hblen]; exact dbHash_lt key)
    case ho => omega
    case hdo => exact hdo0
    case hdl => omega
    case hdat =>
      show ((dbF.dat.take doff.toNat ++ List.replicate (doff.toNat - dbF.dat.length) (Char.ofNat 0) ++ v ++ ['\n'] ++ dbF.dat.drop (doff.toNat + v.length + 1)).drop doff.toNat).take (((v.length : Int) + 1)).toNat = v ++ ['\n']
      have ht : (((v.length : Int) + 1)).toNat = v.length + 1 := by omega
      rw [ht]
      have hrb := writeData_readback dbF.dat v
        (dbF.dat.drop (doff.toNat + v.length + 1)) doff.toNat
      simpa [List.append_assoc] using hrb
    case hvlen => omega

/-- C8's content: `Fetch` of an absent key on a well-formed database
returns the empty value with a nil error. -/
theorem fetch_absent {db : DB} {key : List Char} (h : Handle)
    (hinv : invB db = true) (habs : keyAbsentB db key = true) :
    (fetch db h key).1 = .ok [] := by
  obtain ⟨L, hc, habs'⟩ := keyAbsent_chain hinv habs
  obtain ⟨h1, heq, -, -⟩ := findAndLock_not_found h hc habs'
  unfold fetch
  rw [heq]
  rfl

end HashIndex

namespace LinearHashIndex

/-! ## Header evolution of the linear index -/

/-- The on-disk header triple `(nbuckets, split, nrecords)`. -/
def hdrOf (db : DB) : Nat × Nat × Int := (db.nbuckets, db.splitp, db.nrecords)

/-- The handle's in-memory header copies. -/
def hstate (h : Handle) : Nat × Nat × Int × Nat := (h.nhash, h.s, h.nrecords, h.i)

/-- The effect of one `split` on the `(nbuckets, split)` header pair:
`nbuckets` grows by one, the split pointer advances and resets to 0 when
`2·split` reaches the new `nbuckets`. -/
def splitHdrStep : Nat × Nat → Nat × Nat
  | (n, s) => if (s + 1) * 2 = n + 1 then (n + 1, 0) else (n + 1, s + 1)

/-- One public mutating operation of the linear index, on any handle. -/
inductive Step : DB → DB → Prop where
  | insert (db : DB) (h : Handle) (key value : List Char) :
      Step db (insert db h key value).2.1
  | update (db : DB) (h : Handle) (key value : List Char) :
      Step db (update db h key value).2.1
  | upsert (db : DB) (h : Handle) (key value : List Char) :
      Step db (upsert db h key value).2.1
  | delete (db : DB) (h : Handle) (key : List Char) :
      Step db (delete db h key).2.1

/-- Databases reachable from a freshly created linear database. -/
inductive Reachable : DB → Prop where
  | init : Reachable initDB
  | step {db db' : DB} : Reachable db → Step db db' → Reachable db'

theorem writePtr_hdr (db : DB) (f : PFile) (off v : Nat) :
    hdrOf (writePtr db f off v).2 = hdrOf db := by
  unfold writePtr
  try simp only []
  repeat' split
  all_goals rfl

theorem writeData_hdr (db : DB) (h : Handle) (data : List Char) (off : Int) (w : Whence) :
    hdrOf (writeData db h data off w).2.1 = hdrOf db := by
  unfold writeData
  try simp only []
  repeat' split
  all_goals rfl

theorem writeIdx_hdr (db : DB) (h : Handle) (key : List Char) (off : Nat) (w : Whence)
    (ptrval : Nat) : hdrOf (writeIdx db h key off w ptrval).2.1 = hdrOf db := by
  unfold writeIdx
  try simp only []
  repeat' split
  all_goals rfl

theorem readIdx_handle (db : DB) (h : Handle) (off : Nat) :
    hstate (readIdx db h off).2 = hstate h ∧
      (readIdx db h off).2.chainoff = h.chainoff := by
  unfold readIdx
  try simp only []
  repeat' split
  all_goals exact ⟨rfl, rfl⟩

theorem readData_handle (db : DB) (h : Handle) :
    hstate (readData db h).2 = hstate h := by
  unfold readData
  try simp only []
  repeat' split
  all_goals rfl

theorem writeData_handle (db : DB) (h : Handle) (data : List Char) (off : Int)
    (w : Whence) : hstate (writeData db h data off w).2.2 = hstate h := by
  unfold writeData
  try simp only []
  repeat' split
  all_goals rfl

theorem writeIdx_handle (db : DB) (h : Handle) (key : List Char) (off : Nat) (w : Whence)
    (ptrval : Nat) : hstate (writeIdx db h key off w ptrval).2.2 = hstate h := by
  unfold writeIdx
  try simp only []
  repeat' split
  all_goals rfl

theorem falLoop_handle (db : DB) (key : List Char) :
    ∀ (fuel : Nat) (h : Handle) (off : Nat),
      hstate (falLoop db key fuel h off).2 = hstate h ∧
        (falLoop db key fuel h off).2.chainoff = h.chainoff := by
  intro fuel
  induction fuel with
  | zero =>
    intro h off
    cases off with
    | zero => exact ⟨rfl, rfl⟩
    | succ o => exact ⟨rfl, rfl⟩
  | succ fuel ih =>
    intro h off
    cases off with
    | zero => exact ⟨rfl, rfl⟩
    | succ o =>
      rw [falLoop]
      rcases hri : readIdx db h (o + 1) with ⟨r, h1⟩
      have hh1 : hstate h1 = hstate h ∧ h1.chainoff = h.chainoff := by
        have := readIdx_handle db h (o + 1)
        rw [hri] at this
        exact this
      cases r with
      | ok next =>
        simp only []
        split
        · exact hh1
        · have := ih { h1 with ptroff := o + 1 } next
          constructor
          · rw [this.1]
            exact hh1.1
          · rw [this.2]
            exact hh1.2
      | err e => exact hh1
      | crash => exact hh1

theorem findAndLock_handle (db : DB) (h : Handle) (key : List Char) :
    hstate (findAndLock db h key).2 = hstate h := by
  unfold findAndLock
  try simp only []
  cases hrp : readPtr db (PTR_SZ * dbHash h key + hash_off) PFile.idx with
  | ok off => exact (falLoop_handle db key _ _ _).1
  | err e => rfl
  | crash => rfl

theorem ffLoop_handle (db : DB) (keylen datlen : Int) :
    ∀ (fuel : Nat) (h : Handle) (save off : Nat),
      hstate (ffLoop db keylen datlen fuel h save off).2 = hstate h := by
  intro fuel
  induction fuel with
  | zero =>
    intro h save off
    cases off with
    | zero => rfl
    | succ o => rfl
  | succ fuel ih =>
    intro h save off
    cases off with
    | zero => rfl
    | succ o =>
      rw [ffLoop]
      rcases hri : readIdx db h (o + 1) with ⟨r, h1⟩
      have hh1 : hstate h1 = hstate h := by
        have := (readIdx_handle db h (o + 1)).1
        rw [hri] at this
        exact this
      cases r with
      | ok next =>
        simp only []
        split
        · exact hh1
        · rw [ih h1 (o + 1) next]
          exact hh1
      | err e => exact hh1
      | crash => exact hh1

theorem findFree_hdr (db : DB) (h : Handle) (keylen datlen : Int) :
    hdrOf (findFree db h keylen datlen).2.1 = hdrOf db ∧
      hstate (findFree db h keylen datlen).2.2 = hstate h := by
  unfold findFree
  cases hrp : readPtr db free_off PFile.idx with
  | ok off0 =>
    try simp only []
    rcases hfl : ffLoop db keylen datlen (db.slots.length + 1) h free_off off0 with ⟨r, h1⟩
    have hh1 : hstate h1 = hstate h := by
      have := ffLoop_handle db keylen datlen (db.slots.length + 1) h free_off off0
      rw [hfl] at this
      exact this
    cases r with
    | ok b =>
      rcases b with ⟨b, save⟩
      cases b
      · exact ⟨rfl, hh1⟩
      · exact ⟨writePtr_hdr db .bkt save h1.ptrval, hh1⟩
    | err e => exact ⟨rfl, hh1⟩
    | crash => exact ⟨rfl, hh1⟩
  | err e => exact ⟨rfl, rfl⟩
  | crash => exact ⟨rfl, rfl⟩

theorem deleteLocked_spec (db : DB) (h : Handle) :
    hdrOf (deleteLocked db h).2.1 = hdrOf db ∧
      hstate (deleteLocked db h).2.2 = hstate h := by
  unfold deleteLocked
  try simp only []
  rcases hwd : writeData db
      { h with datbuf := List.replicate h.datbuf.length ' ',
               idxbuf := List.replicate h.idxbuf.length ' ' }
      (List.replicate h.datbuf.length ' ') h.datoff .seekStart with ⟨r0, db1, h1⟩
  have hd1 : hdrOf db1 = hdrOf db := by
    have := writeData_hdr db
      { h with datbuf := List.replicate h.datbuf.length ' ',
               idxbuf := List.replicate h.idxbuf.length ' ' }
      (List.replicate h.datbuf.length ' ') h.datoff .seekStart
    rw [hwd] at this
    exact this
  have hh1 : hstate h1 = hstate h := by
    have := writeData_handle db
      { h with datbuf := List.replicate h.datbuf.length ' ',
               idxbuf := List.replicate h.idxbuf.length ' ' }
      (List.replicate h.datbuf.length ' ') h.datoff .seekStart
    rw [hwd] at this
    exact this
  cases hrp : readPtr db1 free_off PFile.idx with
  | ok freeptr =>
    try simp only []
    rcases hwi : writeIdx db1 h1 h1.idxbuf h1.idxoff .seekStart freeptr with ⟨r1, db2, h2⟩
    have hd2 : hdrOf db2 = hdrOf db1 := by
      have := writeIdx_hdr db1 h1 h1.idxbuf h1.idxoff .seekStart freeptr
      rw [hwi] at this
      exact this
    have hh2 : hstate h2 = hstate h1 := by
      have := writeIdx_handle db1 h1 h1.idxbuf h1.idxoff .seekStart freeptr
      rw [hwi] at this
      exact this
    cases r1 with
    | ok u =>
      try simp only []
      rcases hwp : writePtr db2 .idx free_off h2.idxoff with ⟨r2, db3⟩
      have hd3 : hdrOf db3 = hdrOf db2 := by
        have := writePtr_hdr db2 .idx free_off h2.idxoff
        rw [hwp] at this
        exact this
      cases r2 with
      | ok u2 =>
        try simp only []
        split
        · exact ⟨(writePtr_hdr db3 .bkt h2.ptroff h1.ptrval).trans
            (hd3.trans (hd2.trans hd1)), hh2.trans hh1⟩
        · exact ⟨(writePtr_hdr db3 .idx h2.ptroff h1.ptrval).trans
            (hd3.trans (hd2.trans hd1)), hh2.trans hh1⟩
      | err e => exact ⟨hd3.trans (hd2.trans hd1), hh2.trans hh1⟩
      | crash => exact ⟨hd3.trans (hd2.trans hd1), hh2.trans hh1⟩
    | err e => exact ⟨hd2.trans hd1, hh2.trans hh1⟩
    | crash => exact ⟨hd2.trans hd1, hh2.trans hh1⟩
  | err e => exact ⟨hd1, hh1⟩
  | crash => exact ⟨hd1, hh1⟩

theorem store_spec_hdr (db : DB) (h : Handle) (key value : List Char) (op : StoreOp) :
    hdrOf (store db h key value op).2.1 = hdrOf db ∧
      hstate (store db h key value op).2.2 = hstate (readHeader db h) := by
  unfold store
  try simp only []
  split
  · exact ⟨rfl, rfl⟩
  rcases hfal : findAndLock db (readHeader db h) key with ⟨r, h1⟩
  have hh1 : hstate h1 = hstate (readHeader db h) := by
    have := findAndLock_handle db (readHeader db h) key
    rw [hfal] at this
    exact this
  cases r with
  | ok found =>
    try simp only []
    split
    · -- not found
      split
      · exact ⟨rfl, hh1⟩
      cases hrp : readPtr db h1.chainoff PFile.idx with
      | ok ptrval =>
        try simp only []
        rcases hff : findFree db h1 (key.length : Int) (value.length : Int) with ⟨r1, db1, h2⟩
        have hff2 := findFree_hdr db h1 (key.length : Int) (value.length : Int)
        rw [hff] at hff2
        obtain ⟨hd1, hh2⟩ := hff2
        cases r1 with
        | ok foundFree =>
          try simp only []
          split
          · rcases hwd : writeData db1 h2 value 0 Whence.seekEnd with ⟨r2, db2, h3⟩
            have hwd2 := writeData_hdr db1 h2 value 0 Whence.seekEnd
            rw [hwd] at hwd2
            have hwd3 := writeData_handle db1 h2 value 0 Whence.seekEnd
            rw [hwd] at hwd3
            cases r2 with
            | ok u =>
              try simp only []
              rcases hwi : writeIdx db2 h3 key 0 Whence.seekEnd ptrval with ⟨r3, db3, h4⟩
              have hwi2 := writeIdx_hdr db2 h3 key 0 Whence.seekEnd ptrval
              rw [hwi] at hwi2
              have hwi3 := writeIdx_handle db2 h3 key 0 Whence.seekEnd ptrval
              rw [hwi] at hwi3
              cases r3 with
              | ok u2 =>
                exact ⟨(writePtr_hdr db3 .idx h4.chainoff h4.idxoff).trans
                    (hwi2.trans (hwd2.trans hd1)),
                  hwi3.trans (hwd3.trans (hh2.trans hh1))⟩
              | err e => exact ⟨hwi2.trans (hwd2.trans hd1),
                  hwi3.trans (hwd3.trans (hh2.trans hh1))⟩
              | crash => exact ⟨hwi2.trans (hwd2.trans hd1),
                  hwi3.trans (hwd3.trans (hh2.trans hh1))⟩
            | err e => exact ⟨hwd2.trans hd1, hwd3.trans (hh2.trans hh1)⟩
            | crash => exact ⟨hwd2.trans hd1, hwd3.trans (hh2.trans hh1)⟩
          · rcases hwd : writeData db1 h2 value h2.datoff Whence.seekStart with ⟨r2, db2, h3⟩
            have hwd2 := writeData_hdr db1 h2 value h2.datoff Whence.seekStart
            rw [hwd] at hwd2
            have hwd3 := writeData_handle db1 h2 value h2.datoff Whence.seekStart
            rw [hwd] at hwd3
            cases r2 with
            | ok u =>
              try simp only []
              rcases hwi : writeIdx db2 h3 key h3.idxoff Whence.seekStart ptrval with ⟨r3, db3, h4⟩
              have hwi2 := writeIdx_hdr db2 h3 key h3.idxoff Whence.seekStart ptrval
              rw [hwi] at hwi2
              have hwi3 := writeIdx_handle db2 h3 key h3.idxoff Whence.seekStart ptrval
              rw [hwi] at hwi3
              cases r3 with
              | ok u2 =>
                exact ⟨(writePtr_hdr db3 .idx h4.chainoff h4.idxoff).trans
                    (hwi2.trans (hwd2.trans hd1)),
                  hwi3.trans (hwd3.trans (hh2.trans hh1))⟩
              | err e => exact ⟨hwi2.trans (hwd2.trans hd1),
                  hwi3.trans (hwd3.trans (hh2.trans hh1))⟩
              | crash => exact ⟨hwi2.trans (hwd2.trans hd1),
                  hwi3.trans (hwd3.trans (hh2.trans hh1))⟩
            | err e => exact ⟨hwd2.trans hd1, hwd3.trans (hh2.trans hh1)⟩
            | crash => exact ⟨hwd2.trans hd1, hwd3.trans (hh2.trans hh1)⟩
        | err e => exact ⟨hd1, hh2.trans hh1⟩
        | crash => exact ⟨hd1, hh2.trans hh1⟩
      | err e => exact ⟨rfl, hh1⟩
      | crash => exact ⟨rfl, hh1⟩
    · -- found
      split
      · exact ⟨rfl, hh1⟩
      split
      · -- different length: delete then re-append, errors dropped
        rcases hdl : deleteLocked db h1 with ⟨r1, db1, h2⟩
        have hdl2 := deleteLocked_spec db h1
        rw [hdl] at hdl2
        obtain ⟨hd1, hh2⟩ := hdl2
        cases r1 with
        | ok u =>
          try simp only []
          cases hrp : readPtr db1 h2.chainoff PFile.idx with
          | ok ptrval =>
            try simp only []
            rcases hwd : writeData db1 h2 value 0 .seekEnd with ⟨r2, db2, h3⟩
            have hwd2 := writeData_hdr db1 h2 value 0 .seekEnd
            rw [hwd] at hwd2
            have hwd3 := writeData_handle db1 h2 value 0 .seekEnd
            rw [hwd] at hwd3
            rcases hwi : writeIdx db2 h3 key 0 .seekEnd ptrval with ⟨r3, db3, h4⟩
            have hwi2 := writeIdx_hdr db2 h3 key 0 .seekEnd ptrval
            rw [hwi] at hwi2
            have hwi3 := writeIdx_handle db2 h3 key 0 .seekEnd ptrval
            rw [hwi] at hwi3
            exact ⟨(writePtr_hdr db3 .idx h4.chainoff h4.idxoff).trans
                (hwi2.trans (hwd2.trans hd1)),
              hwi3.trans (hwd3.trans (hh2.trans hh1))⟩
          | err e => exact ⟨hd1, hh2.trans hh1⟩
          | crash => exact ⟨hd1, hh2.trans hh1⟩
        | err e => exact ⟨hd1, hh2.trans hh1⟩
        | crash => exact ⟨hd1, hh2.trans hh1⟩
      · -- same length: in-place data overwrite
        rcases hwd : writeData db h1 value h1.datoff .seekStart with ⟨r2, db2, h3⟩
        have hwd2 := writeData_hdr db h1 value h1.datoff .seekStart
        rw [hwd] at hwd2
        have hwd3 := writeData_handle db h1 value h1.datoff .seekStart
        rw [hwd] at hwd3
        exact ⟨hwd2, hwd3.trans hh1⟩
  | err e => exact ⟨rfl, hh1⟩
  | crash => exact ⟨rfl, hh1⟩

theorem rehashLoop_spec (oldS : Nat) :
    ∀ (fuel : Nat) (db : DB) (h : Handle) (nf : PFile) (no : Nat) (of : PFile) (off : Nat),
      hdrOf (rehashLoop oldS fuel db h nf no of off).2.1 = hdrOf db ∧
        hstate (rehashLoop oldS fuel db h nf no of off).2.2 = hstate h := by
  intro fuel
  induction fuel with
  | zero =>
    intro db h nf no of off
    cases off with
    | zero => exact ⟨rfl, rfl⟩
    | succ o => exact ⟨rfl, rfl⟩
  | succ fuel ih =>
    intro db h nf no of off
    cases off with
    | zero => exact ⟨rfl, rfl⟩
    | succ o =>
      rw [rehashLoop]
      rcases hri : readIdx db h (o + 1) with ⟨r, h1⟩
      have hh1 : hstate h1 = hstate h := by
        have := (readIdx_handle db h (o + 1)).1
        rw [hri] at this
        exact this
      cases r with
      | ok next =>
        try simp only []
        split
        · rcases hw1 : writePtr db nf no (o + 1) with ⟨r1, db1⟩
          have hd1 : hdrOf db1 = hdrOf db := by
            have := writePtr_hdr db nf no (o + 1)
            rw [hw1] at this
            exact this
          cases r1 with
          | ok u =>
            try simp only []
            rcases hw2 : writePtr db1 of h1.ptroff next with ⟨r2, db2⟩
            have hd2 : hdrOf db2 = hdrOf db1 := by
              have := writePtr_hdr db1 of h1.ptroff next
              rw [hw2] at this
              exact this
            cases r2 with
            | ok u2 =>
              have := ih db2 h1 .bkt (o + 1) of next
              exact ⟨this.1.trans (hd2.trans hd1), this.2.trans hh1⟩
            | err e => exact ⟨hd2.trans hd1, hh1⟩
            | crash => exact ⟨hd2.trans hd1, hh1⟩
          | err e => exact ⟨hd1, hh1⟩
          | crash => exact ⟨hd1, hh1⟩
        · have := ih db { h1 with ptroff := o + 1 } nf no .bkt next
          exact ⟨this.1, this.2.trans hh1⟩
      | err e => exact ⟨rfl, hh1⟩
      | crash => exact ⟨rfl, hh1⟩

theorem hstate_eq {h1 h2 : Handle} (he : hstate h1 = hstate h2) :
    h1.nhash = h2.nhash ∧ h1.s = h2.s ∧ h1.nrecords = h2.nrecords ∧ h1.i = h2.i := by
  simp only [hstate, Prod.mk.injEq] at he
  exact ⟨he.1, he.2.1, he.2.2.1, he.2.2.2⟩

/-- The handle state after `split`: `nhash` is incremented, the split
pointer advances with reset (exactly `splitHdrStep`), `nrecords` is
untouched, and the header file fields of the database are not written by
`split` itself. -/
theorem split_spec (db : DB) (h : Handle) :
    hdrOf (split db h).2.1 = hdrOf db ∧
      ((split db h).2.2.nhash, (split db h).2.2.s) = splitHdrStep (h.nhash, h.s) ∧
      (split db h).2.2.nrecords = h.nrecords := by
  unfold split
  try simp only []
  have hr := rehashLoop_spec h.s (db.slots.length + 1)
      { db with buckets := db.buckets ++ [0] }
      { h with nhash := h.nhash + 1,
               i := if 2 ^ h.i < h.nhash + 1 then h.i + 1 else h.i,
               s := if (h.s + 1) * 2 = h.nhash + 1 then 0 else h.s + 1,
               ptroff := PTR_SZ * h.s + hash_off }
      .idx (hash_off + PTR_SZ * db.buckets.length) .idx
  cases hrp : readPtr { db with buckets := db.buckets ++ [0] }
      (PTR_SZ * h.s + hash_off) PFile.idx with
  | ok offset =>
    try simp only []
    obtain ⟨e1, e2, e3, e4⟩ := hstate_eq (hr offset).2
    refine ⟨(hr offset).1, ?_, e3⟩
    by_cases hc : (h.s + 1) * 2 = h.nhash + 1 <;>
      simp [hc] at e1 e2 <;> simp [splitHdrStep, hc, e1, e2]
  | err e =>
    refine ⟨rfl, ?_, rfl⟩
    by_cases hc : (h.s + 1) * 2 = h.nhash + 1 <;> simp [splitHdrStep, hc]
  | crash =>
    refine ⟨rfl, ?_, rfl⟩
    by_cases hc : (h.s + 1) * 2 = h.nhash + 1 <;> simp [splitHdrStep, hc]

theorem hdrOf_eq {db1 db2 : DB} (he : hdrOf db1 = hdrOf db2) :
    db1.nbuckets = db2.nbuckets ∧ db1.splitp = db2.splitp ∧ db1.nrecords = db2.nrecords := by
  simp only [hdrOf, Prod.mk.injEq] at he
  exact he

theorem delete2_hdr (db : DB) (h : Handle) (key : List Char) :
    hdrOf (delete2 db h key).2.1 = hdrOf db := by
  unfold delete2
  rcases hfal : findAndLock db h key with ⟨r, h1⟩
  cases r with
  | ok found =>
    try simp only []
    split
    · rcases hdl : deleteLocked db h1 with ⟨r1, db1, h2⟩
      have hp := (deleteLocked_spec db h1).1
      rw [hdl] at hp
      cases r1 <;> exact hp
    · rfl
  | err e => rfl
  | crash => rfl

theorem delete_hdr (db : DB) (h : Handle) (key : List Char) :
    hdrOf (delete db h key).2.1 = hdrOf db := by
  unfold delete
  try simp only []
  rcases hd2 : delete2 db (readHeader db h) key with ⟨r, db1, h1⟩
  have hp := delete2_hdr db (readHeader db h) key
  rw [hd2] at hp
  cases r <;> exact hp

/-- The `(nbuckets, split)` pair after an `Insert` is either unchanged
(no split triggered, or `store` failed) or advanced by exactly one
`splitHdrStep`. -/
theorem insert_hdr_pair (db : DB) (h : Handle) (key value : List Char) :
    ((insert db h key value).2.1.nbuckets, (insert db h key value).2.1.splitp) =
        (db.nbuckets, db.splitp) ∨
      ((insert db h key value).2.1.nbuckets, (insert db h key value).2.1.splitp) =
        splitHdrStep (db.nbuckets, db.splitp) := by
  unfold insert
  rcases hst : store db h key value .insert with ⟨r, db1, h1⟩
  have hsp := store_spec_hdr db h key value .insert
  rw [hst] at hsp
  obtain ⟨hd1, hh1⟩ := hsp
  obtain ⟨hdb1, hdb2, hdb3⟩ := hdrOf_eq hd1
  obtain ⟨e1, e2, e3, e4⟩ := hstate_eq hh1
  have e1' : h1.nhash = db.nbuckets := e1
  have e2' : h1.s = db.splitp := e2
  cases r with
  | ok u =>
    try simp only []
    split
    · exact Or.inl (by rw [hdb1, hdb2])
    split
    · rcases hsp2 : split db1 h1 with ⟨r2, db2, h2⟩
      have hss := split_spec db1 h1
      rw [hsp2] at hss
      obtain ⟨hd2, hpair, hnr⟩ := hss
      rw [e1', e2'] at hpair
      cases r2 with
      | ok u2 => exact Or.inr hpair
      | err e => exact Or.inr hpair
      | crash =>
        obtain ⟨f1, f2, f3⟩ := hdrOf_eq hd2
        exact Or.inl (by rw [f1, f2, hdb1, hdb2])
    · refine Or.inl ?_
      show (h1.nhash, h1.s) = _
      rw [e1', e2']
  | err e => exact Or.inl (by rw [hdb1, hdb2])
  | crash => exact Or.inl (by rw [hdb1, hdb2])

theorem store_hdr_pair (db : DB) (h : Handle) (key value : List Char) (op : StoreOp) :
    ((store db h key value op).2.1.nbuckets, (store db h key value op).2.1.splitp) =
      (db.nbuckets, db.splitp) := by
  obtain ⟨h1, h2, h3⟩ := hdrOf_eq (store_spec_hdr db h key value op).1
  rw [h1, h2]

/-- Any public mutating operation leaves the `(nbuckets, split)` header
pair unchanged or advances it by exactly one `splitHdrStep`. -/
theorem step_hdr_pair {db db' : DB} (hs : Step db db') :
    (db'.nbuckets, db'.splitp) = (db.nbuckets, db.splitp) ∨
      (db'.nbuckets, db'.splitp) = splitHdrStep (db.nbuckets, db.splitp) := by
  cases hs with
  | insert h key value => exact insert_hdr_pair db h key value
  | update h key value => exact Or.inl (store_hdr_pair db h key value .update)
  | upsert h key value => exact Or.inl (store_hdr_pair db h key value .upsert)
  | delete h key =>
    obtain ⟨e1, e2, e3⟩ := hdrOf_eq (delete_hdr db h key)
    exact Or.inl (by rw [e1, e2])

/-- `splitHdrStep` preserves the strict invariant `2·split < nbuckets`:
the reset fires exactly when advancing would reach equality. -/
theorem splitHdrStep_lt {n s : Nat} (h : 2 * s < n) :
    2 * (splitHdrStep (n, s)).2 < (splitHdrStep (n, s)).1 := by
  by_cases hc : (s + 1) * 2 = n + 1 <;> simp [splitHdrStep, hc]
  omega

/-- The strict form of the split invariant holds on every reachable
database (fresh: `0 < 2`; inductive by `step_hdr_pair` and
`splitHdrStep_lt`). -/
theorem reachable_hdr_strict {db : DB} (hr : Reachable db) :
    2 * db.splitp < db.nbuckets := by
  induction hr with
  | init => decide
  | step hr' hstep ih =>
    rcases step_hdr_pair hstep with hp | hp
    · rw [Prod.mk.injEq] at hp
      omega
    · have hlt := splitHdrStep_lt ih
      rw [← hp] at hlt
      exact hlt

end LinearHashIndex

/-! ## Claims -/

set_option maxRecDepth 400000

/-- C3: `store` validates `len(value)` rather than `len(value)+1` against
`[DATLEN_MIN, DATLEN_MAX]`: a value of length 1023 succeeds as the spec
says, but a value of length `DATLEN_MAX = 1024` is *accepted* instead of
failing with a bounds error — and the record it writes (stored length
1025) is then rejected as corrupt by the index's own reader on the next
fetch. -/
theorem C3_value_length_boundary :
    (HashIndex.insert HashIndex.initDB HashIndex.initHandle ['k', 'e', 'y', '1']
      (List.replicate 1023 'b')).1 = .ok () ∧
    (HashIndex.insert HashIndex.initDB HashIndex.initHandle ['k', 'e', 'y', '1']
      (List.replicate 1024 'a')).1 = .ok () ∧
    (let r := HashIndex.insert HashIndex.initDB HashIndex.initHandle ['k', 'e', 'y', '1']
      (List.replicate 1024 'a');
     (HashIndex.fetch r.2.1 r.2.2 ['k', 'e', 'y', '1']).1 = .err .invalidDatLen) :=
  ⟨by decide, by decide, by decide⟩

/-- C4: `_delete` blanks `len(datbuf)+1` bytes, where `datbuf` is stale
per-operation scratch that `findAndLock` never populates — not the
record's `datlen` bytes.  On a handle that never read the record,
`Insert("key","val")` then `Delete("key")` writes a single newline byte
at `datoff`, leaving `"\nal\n"` in `.dat` instead of the specified
`"   \n"` (spaces over the whole record). -/
theorem C4_delete_blanks_stale_buffer :
    (let r := HashIndex.insert HashIndex.initDB HashIndex.initHandle ['k', 'e', 'y']
      ['v', 'a', 'l'];
     let d := HashIndex.delete r.2.1 r.2.2 ['k', 'e', 'y'];
     d.1 = .ok () ∧ d.2.1.dat = ['\n', 'a', 'l', '\n'] ∧
       d.2.1.dat ≠ [' ', ' ', ' ', '\n']) := by decide

/-- C2: the free-list match in `findFree` compares the freed record's
stored data length — which includes the trailing newline — with the new
value's length, which does not, so a delete followed by an insert whose
key and value lengths equal the deleted record's never reuses the freed
slot: both `.dat` and the chain-record area of `.idx` grow by a full
append.  (A fetch precedes the delete so the freed record's stored
length is the record's true `datlen`, isolating this off-by-one from the
stale-buffer bug of C4.) -/
theorem C2_same_length_insert_does_not_reuse :
    (let r1 := HashIndex.insert HashIndex.initDB HashIndex.initHandle ['k', 'e', 'y']
      ['v', 'a', 'l'];
     let f := HashIndex.fetch r1.2.1 r1.2.2 ['k', 'e', 'y'];
     let d := HashIndex.delete r1.2.1 f.2 ['k', 'e', 'y'];
     let r2 := HashIndex.insert d.2.1 d.2.2 ['k', 'e', 'z'] ['x', 'y', 'z'];
     r2.1 = .ok () ∧ d.2.1.free = 971 ∧
       r1.2.1.dat.length = 4 ∧ d.2.1.dat.length = 4 ∧ r2.2.1.dat.length = 8 ∧
       r1.2.1.idxEnd = 990 ∧ r2.2.1.idxEnd = 1009) := by decide

/-- C5: a chain record whose payload holds only two colon-separated
fields (`"123:45\n"`, otherwise well formed: `idxlen = 7 ∈ [6,1024]`,
trailing newline present) makes `readIdx` index `parts[2]` out of range —
a runtime panic, not the corruption error the spec requires.  Both the
static and the linear variant crash identically. -/
theorem C5_two_field_record_panics :
    (HashIndex.readIdx
      { HashIndex.initDB with
          slots := [(971, ⟨0, 7, ['1', '2', '3', ':', '4', '5', '\n']⟩)], idxEnd := 990 }
      HashIndex.initHandle 971).1 = .crash ∧
    (LinearHashIndex.readIdx
      { LinearHashIndex.initDB with
          slots := [(1, ⟨0, 7, ['1', '2', '3', ':', '4', '5', '\n']⟩)], bktEnd := 20 }
      LinearHashIndex.initHandle 1).1 = .crash := by decide

/-- C9: in `Brickdb.Open` the local `exists` flag is initialised to
`false` and never assigned `true`, so the stored index-type byte is
never consulted: `Open` always proceeds with the caller-requested type,
even when a `.idx` file exists whose stored type differs (here a stored
linear type `"  2"` with a requested static type).  `getIndexType`
itself decodes the stored bytes correctly but is unreachable from
`Open`. -/
theorem C9_open_ignores_stored_index_type :
    (∀ p req, Facade.openIndexChoice p req = .ok req) ∧
    Facade.openIndexChoice ⟨false, false, [' ', ' ', '2']⟩ .hash = .ok .hash ∧
    Facade.getIndexType ⟨false, false, [' ', ' ', '2']⟩ = .ok .linear := by
  refine ⟨fun p req => ?_, by decide, by decide⟩
  rcases p with ⟨ne, d, f3⟩
  cases ne <;> rfl

/-- C8: on a well-formed static database (137 buckets, walkable chains
and free list, every record decodable), `Fetch` of a key absent from its
bucket chain returns the empty value and a nil error — absence is a
value, not an error.  Confirms the claim. -/
theorem C8_fetch_absent_empty :
    ∀ (db : HashIndex.DB) (h : HashIndex.Handle) (key : List Char),
      HashIndex.invB db = true → HashIndex.keyAbsentB db key = true →
      (HashIndex.fetch db h key).1 = .ok [] :=
  fun _ h _ hinv habs => HashIndex.fetch_absent h hinv habs

/-- Witness for C8: fetching from a freshly created database, where every
key is absent. -/
theorem C8_fetch_absent_empty_witness :
    (HashIndex.fetch HashIndex.initDB HashIndex.initHandle ['k', 'e', 'y']).1 = .ok [] :=
  C8_fetch_absent_empty HashIndex.initDB HashIndex.initHandle ['k', 'e', 'y']
    (by decide) (by decide)

/-- C1 (amended): the claim quantifies over every value "within the
documented size bounds", which the spec gives as
`len(value)+1 ∈ [2, 1024]`, i.e. `1 ≤ |v| ≤ 1023` — but `store`
validates `len(value)` itself against `[2, 1024]`, so the
documented-valid length 1 is rejected and the roundtrip fails (see the
counterexample).  Amended to the lengths on which the code delivers the
roundtrip, `2 ≤ |v| ≤ 1023`: on a well-formed database, `Insert` of an
absent key (keys nonempty, colon-free, up to 1010 bytes; handle with a
representable scratch pointer) succeeds and a subsequent `Fetch` with
any handle returns exactly `v`, on both the append and the free-slot
reuse paths of `store`. -/
theorem C1_insert_fetch_roundtrip :
    ∀ (db : HashIndex.DB) (h h2 : HashIndex.Handle) (key v : List Char),
      HashIndex.invB db = true → HashIndex.keyAbsentB db key = true →
      h.ptrval ≤ PTR_MAX → key ≠ [] → ':' ∉ key → key.length ≤ 1010 →
      2 ≤ v.length → v.length ≤ 1023 →
      (HashIndex.insert db h key v).1 = .ok () ∧
        (HashIndex.fetch (HashIndex.insert db h key v).2.1 h2 key).1 = .ok v :=
  fun _ h h2 _ _ hinv habs hp hk hkc hklen hlo hhi =>
    HashIndex.store_insert_absent h h2 hinv habs hp hk hkc hklen hlo hhi

/-- Counterexample to C1 as stated: the value `"v"` has documented-valid
stored length `1 + 1 = 2 ∈ [2, 1024]`, yet `Insert` of the absent key
`"key"` rejects it with the length error, and the subsequent `Fetch`
returns the empty value, not `"v"`. -/
theorem C1_insert_fetch_counterexample :
    HashIndex.keyAbsentB HashIndex.initDB ['k', 'e', 'y'] = true ∧
    (HashIndex.insert HashIndex.initDB HashIndex.initHandle ['k', 'e', 'y'] ['v']).1 =
      .err .invalidDataLength ∧
    (HashIndex.fetch (HashIndex.insert HashIndex.initDB HashIndex.initHandle
        ['k', 'e', 'y'] ['v']).2.1 HashIndex.initHandle ['k', 'e', 'y']).1 ≠
      .ok ['v'] := by
  decide

/-- Witness for C1's amended theorem: insert-then-fetch of `"va"` under
`"key"` on a fresh database. -/
theorem C1_insert_fetch_witness :
    (HashIndex.insert HashIndex.initDB HashIndex.initHandle
        ['k', 'e', 'y'] ['v', 'a']).1 = .ok () ∧
      (HashIndex.fetch (HashIndex.insert HashIndex.initDB HashIndex.initHandle
          ['k', 'e', 'y'] ['v', 'a']).2.1 HashIndex.initHandle ['k', 'e', 'y']).1 =
        .ok ['v', 'a'] :=
  C1_insert_fetch_roundtrip HashIndex.initDB HashIndex.initHandle HashIndex.initHandle
    ['k', 'e', 'y'] ['v', 'a'] (by decide) (by decide) (by decide) (by decide)
    (by decide) (by decide) (by decide) (by decide)

/-- C7 (amended): the claim quantifies over *every* value `v2`, but a
`v2` failing `store`'s initial length check (for example length 1) makes
the second `Insert` fail with the length error, not the "already exists"
error.  Amended: on a well-formed database, for every present key and
every `v2` whose length passes the initial check
(`DATLEN_MIN ≤ |v2| ≤ DATLEN_MAX`), a second `Insert` returns the
"already exists" error and leaves the database completely unchanged. -/
theorem C7_double_insert_amended :
    ∀ (db : HashIndex.DB) (h : HashIndex.Handle) (key v2 : List Char),
      HashIndex.invB db = true → HashIndex.keyPresentB db key = true →
      (DATLEN_MIN : Int) ≤ v2.length → (v2.length : Int) ≤ (DATLEN_MAX : Int) →
      (HashIndex.insert db h key v2).1 = .err .keyExists ∧
        (HashIndex.insert db h key v2).2.1 = db :=
  fun _ h _ v2 hinv hpres hlo hhi =>
    HashIndex.store_insert_present h v2 hinv hpres hlo hhi

/-- Counterexample to C7 as stated: with `"key"` present (value
`"val"`), a second `Insert("key", "x")` fails the initial value-length
check and returns the length error — not the "already exists" error the
claim promises for every `v2`. -/
theorem C7_double_insert_counterexample :
    (let r1 := HashIndex.insert HashIndex.initDB HashIndex.initHandle
        ['k', 'e', 'y'] ['v', 'a', 'l'];
     HashIndex.keyPresentB r1.2.1 ['k', 'e', 'y'] = true ∧
       (HashIndex.insert r1.2.1 r1.2.2 ['k', 'e', 'y'] ['x']).1 =
         .err .invalidDataLength ∧
       (HashIndex.insert r1.2.1 r1.2.2 ['k', 'e', 'y'] ['x']).1 ≠
         .err .keyExists) := by
  decide

/-- Witness for C7's amended theorem: a second insert of `"key"` (with a
valid-length value) on the database that already stores it. -/
theorem C7_double_insert_witness :
    (HashIndex.insert
        (HashIndex.insert HashIndex.initDB HashIndex.initHandle
          ['k', 'e', 'y'] ['v', 'a', 'l']).2.1
        HashIndex.initHandle ['k', 'e', 'y'] ['x', 'y']).1 = .err .keyExists :=
  (C7_double_insert_amended _ HashIndex.initHandle ['k', 'e', 'y'] ['x', 'y']
    (by decide) (by decide) (by decide) (by decide)).1

/-- C6: in the linear hash index, on every database reachable by public
operations (`Insert`/`Update`/`Upsert`/`Delete`, any handle) from a
fresh one, `2·split ≤ nbuckets` holds; no single operation decreases
`nbuckets`; and a `split` that makes `split·2` equal the incremented
`nbuckets` resets the split pointer to 0 while still incrementing
`nbuckets`.  Confirms the claim (the invariant holds in the strict form
`2·split < nbuckets`, proved inductively). -/
theorem C6_linear_split_invariant :
    (∀ db : LinearHashIndex.DB, LinearHashIndex.Reachable db →
        2 * db.splitp ≤ db.nbuckets) ∧
    (∀ db db' : LinearHashIndex.DB, LinearHashIndex.Step db db' →
        db.nbuckets ≤ db'.nbuckets) ∧
    (∀ (db : LinearHashIndex.DB) (h : LinearHashIndex.Handle),
        (h.s + 1) * 2 = h.nhash + 1 →
        (LinearHashIndex.split db h).2.2.s = 0 ∧
        (LinearHashIndex.split db h).2.2.nhash = h.nhash + 1) := by
  refine ⟨?_, ?_, ?_⟩
  · intro db hr
    exact Nat.le_of_lt (LinearHashIndex.reachable_hdr_strict hr)
  · intro db db' hs
    rcases LinearHashIndex.step_hdr_pair hs with hp | hp
    · rw [Prod.mk.injEq] at hp
      omega
    · have h1 := congrArg Prod.fst hp
      by_cases hc : (db.splitp + 1) * 2 = db.nbuckets + 1 <;>
        (simp [LinearHashIndex.splitHdrStep, hc] at h1; omega)
  · intro db h hcond
    have hs := (LinearHashIndex.split_spec db h).2.1
    simp only [LinearHashIndex.splitHdrStep, hcond, if_pos] at hs
    rw [Prod.mk.injEq] at hs
    exact ⟨hs.2, hs.1⟩

/-- Witness for C6: the invariant on the database reached by one
`Insert` from a fresh one; `nbuckets` non-decrease on that step; and the
split-pointer reset on a fresh database with a one-bucket handle, where
`(0+1)·2 = 1+1`. -/
theorem C6_linear_split_invariant_witness :
    2 * (LinearHashIndex.insert LinearHashIndex.initDB LinearHashIndex.initHandle
        ['k'] ['v', '1']).2.1.splitp ≤
      (LinearHashIndex.insert LinearHashIndex.initDB LinearHashIndex.initHandle
        ['k'] ['v', '1']).2.1.nbuckets ∧
    LinearHashIndex.initDB.nbuckets ≤
      (LinearHashIndex.insert LinearHashIndex.initDB LinearHashIndex.initHandle
        ['k'] ['v', '1']).2.1.nbuckets ∧
    (LinearHashIndex.split LinearHashIndex.initDB
        { LinearHashIndex.initHandle with nhash := 1 }).2.2.s = 0 := by
  obtain ⟨h1, h2, h3⟩ := C6_linear_split_invariant
  exact ⟨h1 _ (LinearHashIndex.Reachable.step LinearHashIndex.Reachable.init
      (LinearHashIndex.Step.insert LinearHashIndex.initDB LinearHashIndex.initHandle
        ['k'] ['v', '1'])),
    h2 _ _ (LinearHashIndex.Step.insert LinearHashIndex.initDB LinearHashIndex.initHandle
      ['k'] ['v', '1']),
    (h3 LinearHashIndex.initDB { LinearHashIndex.initHandle with nhash := 1 } (by decide)).1⟩

/-- C10: the linear index's `Delete` leaves the whole header triple
`(nbuckets, split, nrecords)` unchanged — the `updateHeader(-1)` call is
commented out in the source — so `nrecords` counts cumulative inserts,
not live records.  Concretely: `Insert("k1","v1")` sets `nrecords = 1`;
deleting `"k1"` succeeds, moves the record to the free list
(`free = 1`), makes the key absent (`Fetch` returns the empty string),
yet `nrecords` is still 1.  Confirms the claim. -/
theorem C10_delete_never_decrements_nrecords :
    (∀ (db : LinearHashIndex.DB) (h : LinearHashIndex.Handle) (key : List Char),
        ((LinearHashIndex.delete db h key).2.1.nbuckets,
          (LinearHashIndex.delete db h key).2.1.splitp,
          (LinearHashIndex.delete db h key).2.1.nrecords) =
          (db.nbuckets, db.splitp, db.nrecords)) ∧
    (let r1 := LinearHashIndex.insert LinearHashIndex.initDB LinearHashIndex.initHandle
        ['k', '1'] ['v', '1'];
     let d := LinearHashIndex.delete r1.2.1 r1.2.2 ['k', '1'];
     r1.2.1.nrecords = 1 ∧ d.1 = .ok () ∧ d.2.1.nrecords = 1 ∧ d.2.1.free = 1 ∧
       (LinearHashIndex.fetch d.2.1 d.2.2 ['k', '1']).1 = .ok []) := by
  refine ⟨?_, by decide, by decide, by decide, by decide, by decide⟩
  intro db h key
  exact LinearHashIndex.delete_hdr db h key

end Brickdb
